import Mathlib

/-!
Verification development for the Kite Pilote release-maintenance scripts.

The repository consists of three Python scripts:
  * `script/update_version.py` — extracts a four-part version from the
    changelog and rewrites six `#define` lines of `include/core/config.h`
    with `re.sub`;
  * `script/github_backup.py` — orchestrates version bump, change-summary
    extraction, `git add` / `git commit` / `git push`;
  * `backup_script.py` — a simpler stage/commit/push orchestrator.

Text is embedded as `List Char`.  Python's regular-expression operations
used by the scripts all have the shape "literal head, one-or-more characters
of a class, literal tail"; for such patterns greedy matching with
backtracking coincides with "maximal class run, then check the tail", which
is what the executable model below implements.  Stateful behaviour
(the file system, the commands issued, the diagnostics printed) is made
explicit as state records threaded through the functions.
-/

/-! ### Basic text utilities -/

/-- `litCheck p s` is true when the literal `p` is an initial segment of `s`. -/
def litCheck : List Char → List Char → Bool
  | [], _ => true
  | _ :: _, [] => false
  | a :: as, b :: bs => a == b && litCheck as bs

/-- Length of the maximal initial run of characters of class `cls`. -/
def runLen (cls : Char → Bool) : List Char → Nat
  | [] => 0
  | c :: cs => if cls c then runLen cls cs + 1 else 0

/-- Characters treated as whitespace by Python's `str.strip()`. -/
def isSpaceCh (c : Char) : Bool :=
  c == ' ' || c == '\t' || c == '\n' || c == '\r' || c == '\x0b' || c == '\x0c'

/-- Python `str.strip()`: remove leading and trailing whitespace. -/
def pyStrip (s : List Char) : List Char :=
  ((s.dropWhile isSpaceCh).reverse.dropWhile isSpaceCh).reverse

/-- Split a character list at every occurrence of the separator `b`
(Python `str.split(sep)`); the result is always non-empty. -/
def splitB (b : Char) : List Char → List (List Char)
  | [] => [[]]
  | c :: cs =>
    if c = b then [] :: splitB b cs
    else
      match splitB b cs with
      | [] => [[c]]
      | l :: ls => (c :: l) :: ls

/-- Join pieces with the separator `b` (Python `sep.join(...)`). -/
def joinB (b : Char) : List (List Char) → List Char
  | [] => []
  | l :: ls =>
    match ls with
    | [] => l
    | _ :: _ => l ++ b :: joinB b ls

/-- Take characters up to (excluding) the first occurrence of the literal
`lit`; used for the lazy group `(.*?)` bounded by a lookahead. -/
def takeUntilLit (lit : List Char) : List Char → List Char
  | [] => []
  | c :: cs => if litCheck lit (c :: cs) then [] else c :: takeUntilLit lit cs

/-- ASCII decimal digit test (model of `\d` over the texts handled here). -/
def isDigitCh (c : Char) : Bool :=
  48 ≤ c.toNat && c.toNat ≤ 57

/-- The decimal digit character for `k < 10` (else `'9'`). -/
def digitCh (k : Nat) : Char :=
  if k = 0 then '0' else if k = 1 then '1' else if k = 2 then '2'
  else if k = 3 then '3' else if k = 4 then '4' else if k = 5 then '5'
  else if k = 6 then '6' else if k = 7 then '7' else if k = 8 then '8'
  else '9'

/-- Fuelled accumulator loop producing the decimal digits of `n` in front of
`acc`; any fuel `≥ n` is sufficient. -/
def natReprAuxF : Nat → Nat → List Char → List Char
  | 0, _, acc => acc
  | f + 1, n, acc =>
    if n = 0 then acc else natReprAuxF f (n / 10) (digitCh (n % 10) :: acc)

/-- Decimal rendering of a natural number (model of Python `str(int)`
inside an f-string). -/
def natRepr (n : Nat) : List Char :=
  if n = 0 then ['0'] else natReprAuxF n n []

/-- Value of a decimal digit string (model of Python `int(...)` on the
digit groups captured by the regular expressions). -/
def parseNat (ds : List Char) : Nat :=
  ds.foldl (fun a c => a * 10 + (c.toNat - 48)) 0

/-! ### The substitution engine

Every `re.sub` call in `update_version.py` uses a pattern of the shape
"literal head, one-or-more characters of a class, literal tail", where the
first character of the tail is never in the class.  `patMatchAt` decides a
match at the current position and returns its length; `subAll` replicates
`re.sub`'s scan: replace the leftmost match, continue after it. -/

structure SubPat where
  lit : List Char
  cls : Char → Bool
  tail : List Char

/-- Match length of `p` at the head of `s`, if any. -/
def patMatchAt (p : SubPat) (s : List Char) : Option Nat :=
  if litCheck p.lit s then
    let rest := s.drop p.lit.length
    let r := runLen p.cls rest
    if r = 0 then none
    else if litCheck p.tail (rest.drop r) then
      some (p.lit.length + r + p.tail.length)
    else none
  else none

/-- Fuelled worker for `subAll`; any fuel `≥ s.length` is sufficient. -/
def subAllF (p : SubPat) (rep : List Char) : Nat → List Char → List Char
  | 0, s => s
  | _ + 1, [] => []
  | f + 1, c :: cs =>
    match patMatchAt p (c :: cs) with
    | some n => rep ++ subAllF p rep f (cs.drop (n - 1))
    | none => c :: subAllF p rep f cs

/-- Model of Python `re.sub(pattern, rep, s)` for the patterns above:
every non-overlapping match, scanned left to right, is replaced. -/
def subAll (p : SubPat) (rep : List Char) (s : List Char) : List Char :=
  subAllF p rep s.length s

/-- Does `p` match anywhere in `s`? -/
def hasMatch (p : SubPat) : List Char → Bool
  | [] => false
  | c :: cs => (patMatchAt p (c :: cs)).isSome || hasMatch p cs

/-- Apply a list of (pattern, replacement) substitutions in order
(the sequence of `content = re.sub(...)` statements). -/
def applyAll (prs : List (SubPat × List Char)) (s : List Char) : List Char :=
  prs.foldl (fun acc pr => subAll pr.1 pr.2 acc) s

/-! ### A file-system model

The scripts read and write whole files; a file system is a finite map from
path to content, with explicit read/write/erase operations. -/

abbrev FileSys := List (List Char × List Char)

def fsLookup : FileSys → List Char → Option (List Char)
  | [], _ => none
  | p :: fs, n => if p.1 = n then some p.2 else fsLookup fs n

def fsErase : FileSys → List Char → FileSys
  | [], _ => []
  | p :: fs, n => if p.1 = n then fsErase fs n else p :: fsErase fs n

def fsWrite (fs : FileSys) (n c : List Char) : FileSys :=
  (n, c) :: fsErase fs n

/-- Result of one external command invocation (exit status and the two
captured output streams). -/
structure CmdResult where
  exitCode : Nat
  out : List Char
  err : List Char
deriving DecidableEq

/-- A run of the orchestrator is determined by what each issued command
returns; each command line is issued at most once per run, so a function
from command line to result covers every run. -/
abbrev Exec := List Char → CmdResult

/-! ### `script/update_version.py` -/

namespace UV

/-- Four-part version extracted from the changelog
(`{'major': ..., 'minor': ..., 'patch': ..., 'build': ...}`). -/
structure Version where
  major : Nat
  minor : Nat
  patch : Nat
  build : Nat
deriving DecidableEq

def changelogPath : List Char := "docs/changelog.md".data

def configPath : List Char := "include/core/config.h".data

/-- Expect a single character `c` at the head. -/
def expectCh (c : Char) : List Char → Option (List Char)
  | [] => none
  | x :: xs => if x = c then some (xs) else none

/-- One greedy `(\d+)` group: the maximal non-empty digit run and the rest. -/
def grpDigits (s : List Char) : Option (List Char × List Char) :=
  let r := runLen isDigitCh s
  if r = 0 then none else some (s.take r, s.drop r)

/-- Match of `v(\d+)\.(\d+)\.(\d+)\.(\d+)` anchored at the head of `s`. -/
def versionAt (s : List Char) : Option Version :=
  match s with
  | [] => none
  | c :: cs =>
    if c = 'v' then
      (grpDigits cs).bind fun (d1, s1) =>
      (expectCh '.' s1).bind fun s2 =>
      (grpDigits s2).bind fun (d2, s3) =>
      (expectCh '.' s3).bind fun s4 =>
      (grpDigits s4).bind fun (d3, s5) =>
      (expectCh '.' s5).bind fun s6 =>
      (grpDigits s6).bind fun (d4, _) =>
      some ⟨parseNat d1, parseNat d2, parseNat d3, parseNat d4⟩
    else none

/-- First match of the version pattern in document order
(`re.findall(r'v(\d+)\.(\d+)\.(\d+)\.(\d+)', content)`, first element). -/
def findFirstVersion : List Char → Option Version
  | [] => none
  | c :: cs =>
    match versionAt (c :: cs) with
    | some v => some v
    | none => findFirstVersion cs

/-- `extract_version_from_changelog`, lifted over the file system; a read of
the changelog is recorded when the file exists. -/
structure St where
  fs : FileSys
  reads : List (List Char)
  writes : List (List Char × List Char)
deriving DecidableEq

def extract_version_from_changelog (st : St) : St × Option Version :=
  match fsLookup st.fs changelogPath with
  | none => (st, none)
  | some content =>
    ({ st with reads := st.reads ++ [changelogPath] }, findFirstVersion content)

/-- Pattern of `re.sub(r'#define VERSION_MAJOR \d+', ...)`. -/
def patMajor : SubPat := ⟨"#define VERSION_MAJOR ".data, isDigitCh, []⟩

def patMinor : SubPat := ⟨"#define VERSION_MINOR ".data, isDigitCh, []⟩

def patPatchNum : SubPat := ⟨"#define VERSION_PATCH ".data, isDigitCh, []⟩

def patBuildNum : SubPat := ⟨"#define VERSION_BUILD ".data, isDigitCh, []⟩

/-- Pattern of `re.sub(r'#define VERSION_STRING "v[\d\.]+"', ...)`. -/
def patVerString : SubPat :=
  ⟨"#define VERSION_STRING \"v".data, fun c => isDigitCh c || c == '.', ['"']⟩

/-- Pattern of `re.sub(r'#define BUILD_DATE "[\d/]+"', ...)`. -/
def patBuildDate : SubPat :=
  ⟨"#define BUILD_DATE \"".data, fun c => isDigitCh c || c == '/', ['"']⟩

/-- `f'v{major}.{minor}.{patch}.{build}'`. -/
def version_string (v : Version) : List Char :=
  'v' :: (natRepr v.major ++ '.' ::
    (natRepr v.minor ++ '.' :: (natRepr v.patch ++ '.' :: natRepr v.build)))

/-- The six substitutions of `update_config_version`, in source order. -/
def verPats (v : Version) (today : List Char) : List (SubPat × List Char) :=
  [ (patMajor, "#define VERSION_MAJOR ".data ++ natRepr v.major),
    (patMinor, "#define VERSION_MINOR ".data ++ natRepr v.minor),
    (patPatchNum, "#define VERSION_PATCH ".data ++ natRepr v.patch),
    (patBuildNum, "#define VERSION_BUILD ".data ++ natRepr v.build),
    (patVerString, "#define VERSION_STRING \"".data ++ version_string v ++ ['"']),
    (patBuildDate, "#define BUILD_DATE \"".data ++ today ++ ['"']) ]

/-- The pure text transformation performed by `update_config_version` on the
artifact's content (`today` is the rendered current date `DD/MM/YYYY`). -/
def update_config_content (v : Version) (today : List Char) (content : List Char) :
    List Char :=
  applyAll (verPats v today) content

/-- `update_config_version`, lifted over the file system; returns `false`
when the config artifact is missing, `true` after rewriting it. -/
def update_config_version (v : Version) (today : List Char) (st : St) : St × Bool :=
  match fsLookup st.fs configPath with
  | none => (st, false)
  | some content =>
    let st1 := { st with reads := st.reads ++ [configPath] }
    let out := update_config_content v today content
    ({ st1 with
        fs := fsWrite st1.fs configPath out,
        writes := st1.writes ++ [(configPath, out)] }, true)

/-- `main` of `update_version.py`; the boolean is `false` exactly when the
process calls `sys.exit(1)`. -/
def main (fs0 : FileSys) (today : List Char) : St × Bool :=
  match extract_version_from_changelog ⟨fs0, [], []⟩ with
  | (st, none) => (st, false)
  | (st, some v) =>
    match update_config_version v today st with
    | (st1, true) => (st1, true)
    | (st1, false) => (st1, false)

end UV

/-! ### `script/github_backup.py` -/

namespace GB

/-- One diagnostic block printed by `run_command` on a failing command
(`ERREUR: msg / Commande: cmd / Code de sortie: code / Sortie d'erreur: err`). -/
structure ErrReport where
  msg : List Char
  cmd : List Char
  code : Nat
  errOut : List Char
deriving DecidableEq

/-- Observable state of a run: the file system, the commands issued in
order, the failure diagnostics printed, and the file writes performed. -/
structure St where
  fs : FileSys
  trace : List (List Char)
  reports : List ErrReport
  writes : List (List Char × List Char)
deriving DecidableEq

def updateCmd : List Char := "python3 script/update_version.py".data

def statusCmd : List Char := "git status --porcelain".data

def addCmd : List Char := "git add .".data

def commitCmd : List Char := "git commit -F .git_commit_msg.tmp".data

def pushCmd (remote branch : List Char) : List Char :=
  "git push ".data ++ remote ++ ' ' :: branch

def tmpName : List Char := ".git_commit_msg.tmp".data

def changelogPath : List Char := "docs/changelog.md".data

/-- `run_command`: on exit 0 return the stripped stdout; on a non-zero exit
print the diagnostic block when an error message was supplied (silently
otherwise) and call `sys.exit(1)` — modelled as `none`. -/
def run_command (ex : Exec) (cmd : List Char) (emsg : Option (List Char))
    (g : St) : St × Option (List Char) :=
  let r := ex cmd
  let g1 := { g with trace := g.trace ++ [cmd] }
  if r.exitCode = 0 then (g1, some (pyStrip r.out))
  else
    match emsg with
    | some m =>
      ({ g1 with reports := g1.reports ++ [⟨m, cmd, r.exitCode, r.err⟩] }, none)
    | none => (g1, none)

/-- Literal part of `re.search(r'Version mise à jour à (v[\d\.]+)', output)`
up to and including the group's leading `v`. -/
def phraseLit : List Char := "Version mise à jour à v".data

def isVerCh (c : Char) : Bool := isDigitCh c || c == '.'

/-- Match of the version phrase anchored at the head, returning group 1. -/
def phraseAt (s : List Char) : Option (List Char) :=
  if litCheck phraseLit s then
    let rest := s.drop phraseLit.length
    let r := runLen isVerCh rest
    if r = 0 then none else some ('v' :: rest.take r)
  else none

/-- Leftmost match of the version phrase (`re.search`). -/
def searchPhrase : List Char → Option (List Char)
  | [] => none
  | c :: cs =>
    match phraseAt (c :: cs) with
    | some v => some v
    | none => searchPhrase cs

/-- `update_version` of the orchestrator: run the synchronizer script and
recover the version from its stdout, falling back to `"version inconnue"`. -/
def update_version (ex : Exec) (g : St) : St × Option (List Char) :=
  match run_command ex updateCmd (some "Échec de la mise à jour de la version".data) g with
  | (g1, none) => (g1, none)
  | (g1, some out) =>
    match searchPhrase out with
    | some v => (g1, some v)
    | none => (g1, some "version inconnue".data)

/-- Expect the literal `lit` at the head, returning the rest. -/
def expectLit (lit s : List Char) : Option (List Char) :=
  if litCheck lit s then some (s.drop lit.length) else none

/-- Split off the current (possibly empty) line: the characters before the
next newline, and the rest starting at that newline. -/
def lineSplit (s : List Char) : List Char × List Char :=
  (s.takeWhile (fun c => !(c == '\n')), s.dropWhile (fun c => !(c == '\n')))

/-- Match, anchored at the head, of the change-block pattern
`## [^\n]+\n\n### ([^\n]+)[^\n]*\n- \*\*Catégorie\*\*: ([^\n]+)\n- \*\*Action\*\*:(.*?)(?=\n\n###|\Z)`
(DOTALL), returning the three groups. -/
def blockAt (s : List Char) : Option (List Char × List Char × List Char) :=
  (expectLit "## ".data s).bind fun s1 =>
  let (d, s2) := lineSplit s1
  if d.isEmpty then none else
  (expectLit "\n\n### ".data s2).bind fun s3 =>
  let (t, s4) := lineSplit s3
  if t.isEmpty then none else
  (expectLit "\n- **Catégorie**: ".data s4).bind fun s5 =>
  let (cat, s6) := lineSplit s5
  if cat.isEmpty then none else
  (expectLit "\n- **Action**:".data s6).bind fun s7 =>
  some (t, cat, takeUntilLit "\n\n###".data s7)

/-- Leftmost match of the change-block pattern (first element of
`re.findall`, the only one `main` uses). -/
def scanBlocks : List Char → Option (List Char × List Char × List Char)
  | [] => none
  | c :: cs =>
    match blockAt (c :: cs) with
    | some r => some r
    | none => scanBlocks cs

/-- Re-indentation of the Action body and assembly of the change summary. -/
def renderChanges (t cat act : List Char) : List Char :=
  let title := pyStrip t
  let category := pyStrip cat
  let als := (splitB '\n' (pyStrip act)).map fun l =>
    let l1 := pyStrip l
    if litCheck ['-'] l1 then "  ".data ++ l1 else "    ".data ++ l1
  let action := joinB '\n' als
  title ++ '\n' :: ("Catégorie: ".data ++ category) ++ '\n' :: action

/-- `extract_latest_changes`: read the changelog, find the first change
block, degrade to the sentinel text when absent. -/
def extract_latest_changes (g : St) : St × List Char :=
  match fsLookup g.fs changelogPath with
  | none => (g, "Modifications non détaillées".data)
  | some content =>
    match scanBlocks content with
    | none => (g, "Modifications non détaillées".data)
    | some (t, cat, act) => (g, renderChanges t cat act)

/-- `stage_all_changes`. -/
def stage_all_changes (ex : Exec) (g : St) : St × Option Unit :=
  match run_command ex addCmd (some "Échec de l'ajout des fichiers".data) g with
  | (g1, none) => (g1, none)
  | (g1, some _) => (g1, some ())

/-- `create_commit`: write the multi-line message to the transient file,
run `git commit -F`, then delete the file — the deletion is reached only
when the commit command succeeded, because a failing `run_command` exits. -/
def create_commit (ex : Exec) (version changes today : List Char) (g : St) :
    St × Option Unit :=
  let msg := "Version ".data ++ version ++ " - ".data ++ today
      ++ '\n' :: '\n' :: changes
  let g1 := { g with
      fs := fsWrite g.fs tmpName msg,
      writes := g.writes ++ [(tmpName, msg)] }
  match run_command ex commitCmd (some "Échec de la création du commit".data) g1 with
  | (g2, none) => (g2, none)
  | (g2, some _) =>
    (if (fsLookup g2.fs tmpName).isSome then { g2 with fs := fsErase g2.fs tmpName }
     else g2, some ())

/-- `push_to_github`. -/
def push_to_github (ex : Exec) (remote branch : List Char) (g : St) :
    St × Option Unit :=
  match run_command ex (pushCmd remote branch)
      (some ("Échec du push vers ".data ++ remote ++ '/' :: branch)) g with
  | (g1, none) => (g1, none)
  | (g1, some _) => (g1, some ())

/-- Process outcome of a run of `main`: `exitFail` is `sys.exit(1)`;
`noChanges` is the early normal return on a clean tree; `success` is the
normal end of the full pipeline.  The process exit code is 0 for the last
two and 1 for the first. -/
inductive Outcome
  | exitFail
  | noChanges
  | success
deriving DecidableEq

/-- `main` of `github_backup.py`: repository check, version update, change
detection (early no-op return), change extraction, stage, commit, push. -/
def main (ex : Exec) (isRepo : Bool) (fs0 : FileSys) (today remote branch : List Char) :
    St × Outcome :=
  let g0 : St := ⟨fs0, [], [], []⟩
  if !isRepo then (g0, .exitFail)
  else
    match update_version ex g0 with
    | (g, none) => (g, .exitFail)
    | (g, some version) =>
      match run_command ex statusCmd none g with
      | (g1, none) => (g1, .exitFail)
      | (g1, some out) =>
        if (pyStrip out).isEmpty then (g1, .noChanges)
        else
          let (g2, changes) := extract_latest_changes g1
          match stage_all_changes ex g2 with
          | (g3, none) => (g3, .exitFail)
          | (g3, some _) =>
            match create_commit ex version changes today g3 with
            | (g4, none) => (g4, .exitFail)
            | (g4, some _) =>
              match push_to_github ex remote branch g4 with
              | (g5, none) => (g5, .exitFail)
              | (g5, some _) => (g5, .success)

end GB

/-! ### `backup_script.py` -/

namespace BS

def revCmd : List Char := "git rev-parse --is-inside-work-tree".data

def addCmd : List Char := "git add .".data

def statusCmd : List Char := "git status --porcelain".data

def pushCmd : List Char := "git push".data

/-- `f'git commit -m "Automated backup {now}"'`. -/
def commitCmd (now : List Char) : List Char :=
  "git commit -m \"Automated backup ".data ++ now ++ ['"']

/-- Where `backup_and_commit` stopped; only `noChanges` and `success` end
the process with exit code 0 after a completed stage sequence — the failure
outcomes print to stderr and return. -/
inductive Outcome
  | repoFail
  | addFail
  | noChanges
  | commitFail
  | pushFail
  | success
deriving DecidableEq

/-- `run_command` of `backup_script.py` returns a boolean; the command is
recorded in the trace. -/
def bsStep (ex : Exec) (cmd : List Char) (t : List (List Char)) :
    List (List Char) × Bool :=
  (t ++ [cmd], (ex cmd).exitCode == 0)

/-- `backup_and_commit`: repo check, `git add .`, porcelain status query
(issued directly, without the failure-exit wrapper), then commit and push. -/
def backup_and_commit (ex : Exec) (now : List Char) :
    List (List Char) × Outcome :=
  match bsStep ex revCmd [] with
  | (t, false) => (t, .repoFail)
  | (t, true) =>
    match bsStep ex addCmd t with
    | (t1, false) => (t1, .addFail)
    | (t1, true) =>
      let st := ex statusCmd
      let t2 := t1 ++ [statusCmd]
      if (pyStrip st.out).isEmpty then (t2, .noChanges)
      else
        match bsStep ex (commitCmd now) t2 with
        | (t3, false) => (t3, .commitFail)
        | (t3, true) =>
          match bsStep ex pushCmd t3 with
          | (t4, false) => (t4, .pushFail)
          | (t4, true) => (t4, .success)

end BS

/-! ### Lemmas about the matcher -/

theorem litCheck_nil {p : List Char} (h : p ≠ []) : litCheck p [] = false := by
  cases p with
  | nil => exact absurd rfl h
  | cons a as => rfl

theorem litCheck_le {p s : List Char} (h : litCheck p s = true) :
    p.length ≤ s.length := by
  induction p generalizing s with
  | nil => simp
  | cons a as ih =>
    cases s with
    | nil => simp [litCheck] at h
    | cons b bs =>
      simp only [litCheck, Bool.and_eq_true, beq_iff_eq] at h
      simpa using ih h.2

theorem litCheck_append_stop {p : List Char} {b : Char} (hb : b ∉ p)
    (a r : List Char) : litCheck p (a ++ b :: r) = litCheck p a := by
  induction p generalizing a with
  | nil => rfl
  | cons x xs ih =>
    cases a with
    | nil =>
      have hxb : ¬(x = b) := fun h => hb (by simp [h])
      simp only [List.nil_append, litCheck]
      simp [hxb]
    | cons y ys =>
      have hxs : b ∉ xs := fun h => hb (List.mem_cons_of_mem _ h)
      simp only [List.cons_append, litCheck, List.append_eq]
      rw [ih hxs]

theorem runLen_le (cls : Char → Bool) (s : List Char) :
    runLen cls s ≤ s.length := by
  induction s with
  | nil => simp [runLen]
  | cons c cs ih =>
    simp only [runLen, List.length_cons]
    split <;> omega

theorem runLen_append_stop {cls : Char → Bool} {b : Char} (hb : cls b = false)
    (a r : List Char) : runLen cls (a ++ b :: r) = runLen cls a := by
  induction a with
  | nil => simp [runLen, hb]
  | cons c cs ih =>
    simp only [List.cons_append, runLen, List.append_eq]
    rw [ih]

theorem runLen_all {cls : Char → Bool} {s : List Char}
    (h : ∀ c ∈ s, cls c = true) : runLen cls s = s.length := by
  induction s with
  | nil => rfl
  | cons c cs ih =>
    simp only [runLen, List.length_cons, h c (by simp), if_true]
    rw [ih fun x hx => h x (List.mem_cons_of_mem _ hx)]

theorem dropAppendLe {n : Nat} {a : List Char} (h : n ≤ a.length)
    (t : List Char) : (a ++ t).drop n = a.drop n ++ t := by
  induction a generalizing n with
  | nil =>
    have : n = 0 := by simpa using h
    simp [this]
  | cons c cs ih =>
    cases n with
    | zero => simp
    | succ m =>
      simp only [List.cons_append, List.drop_succ_cons]
      exact ih (by simpa using h)

theorem memOfDrop {x : Char} {l : List Char} {n : Nat}
    (h : x ∈ l.drop n) : x ∈ l := by
  induction l generalizing n with
  | nil => simp at h
  | cons c cs ih =>
    cases n with
    | zero => simpa using h
    | succ m =>
      simp only [List.drop_succ_cons] at h
      exact List.mem_cons_of_mem _ (ih h)

theorem patMatchAt_pos {p : SubPat} {s : List Char} {n : Nat}
    (h : patMatchAt p s = some n) : 1 ≤ n := by
  simp only [patMatchAt] at h
  split at h
  · split at h
    · exact absurd h (by simp)
    · split at h
      · rename_i hr _
        have := Option.some.inj h
        omega
      · exact absurd h (by simp)
  · exact absurd h (by simp)

theorem patMatchAt_le {p : SubPat} {s : List Char} {n : Nat}
    (h : patMatchAt p s = some n) : n ≤ s.length := by
  simp only [patMatchAt] at h
  split at h
  · rename_i hlit
    split at h
    · exact absurd h (by simp)
    · split at h
      · rename_i hr htail
        have hn := Option.some.inj h
        have h1 : p.lit.length ≤ s.length := litCheck_le hlit
        have h2 : runLen p.cls (s.drop p.lit.length) ≤ s.length - p.lit.length := by
          have := runLen_le p.cls (s.drop p.lit.length)
          simpa [List.length_drop] using this
        have h3 : p.tail.length ≤
            s.length - (p.lit.length + runLen p.cls (s.drop p.lit.length)) := by
          have := litCheck_le htail
          simpa [List.length_drop] using this
        omega
      · exact absurd h (by simp)
  · exact absurd h (by simp)

theorem patMatchAt_append {p : SubPat} {b : Char}
    (hlit : b ∉ p.lit) (hcls : p.cls b = false) (htail : b ∉ p.tail)
    (a r : List Char) : patMatchAt p (a ++ b :: r) = patMatchAt p a := by
  simp only [patMatchAt]
  rw [litCheck_append_stop hlit]
  by_cases h : litCheck p.lit a = true
  · have hle : p.lit.length ≤ a.length := litCheck_le h
    rw [dropAppendLe hle]
    rw [runLen_append_stop hcls]
    have hrle : runLen p.cls (a.drop p.lit.length) ≤ (a.drop p.lit.length).length :=
      runLen_le _ _
    rw [dropAppendLe hrle]
    rw [litCheck_append_stop htail]
  · simp [h]

/-! ### Lemmas about the substitution engine -/

theorem subAllF_congr (p : SubPat) (rep : List Char) :
    ∀ f g s, s.length ≤ f → s.length ≤ g →
      subAllF p rep f s = subAllF p rep g s := by
  intro f
  induction f with
  | zero =>
    intro g s hf _
    have hs : s = [] := List.eq_nil_of_length_eq_zero (Nat.le_zero.mp hf)
    subst hs
    cases g <;> rfl
  | succ f ih =>
    intro g s hf hg
    cases s with
    | nil => cases g <;> rfl
    | cons c cs =>
      cases g with
      | zero => simp at hg
      | succ g' =>
        simp only [subAllF]
        cases hm : patMatchAt p (c :: cs) with
        | some n =>
          have hd : (cs.drop (n - 1)).length ≤ cs.length := by
            simp [List.length_drop]
          have hf' : cs.length ≤ f := by simpa using hf
          have hg' : cs.length ≤ g' := by simpa using hg
          simp only []
          rw [ih g' (cs.drop (n - 1)) (le_trans hd hf') (le_trans hd hg')]
        | none =>
          have hf' : cs.length ≤ f := by simpa using hf
          have hg' : cs.length ≤ g' := by simpa using hg
          simp only []
          rw [ih g' cs hf' hg']

theorem subAll_nil (p : SubPat) (rep : List Char) : subAll p rep [] = [] := rfl

theorem subAll_cons (p : SubPat) (rep : List Char) (c : Char) (cs : List Char) :
    subAll p rep (c :: cs) =
      match patMatchAt p (c :: cs) with
      | some n => rep ++ subAll p rep (cs.drop (n - 1))
      | none => c :: subAll p rep cs := by
  show subAllF p rep (cs.length + 1) (c :: cs) = _
  simp only [subAllF]
  cases hm : patMatchAt p (c :: cs) with
  | some n =>
    have hd : (cs.drop (n - 1)).length ≤ cs.length := by simp [List.length_drop]
    simp only []
    rw [subAllF_congr p rep cs.length (cs.drop (n - 1)).length (cs.drop (n - 1)) hd le_rfl]
    rfl
  | none => rfl

theorem subAll_barrier_head {p : SubPat} {b : Char} (rep : List Char)
    (hnil : p.lit ≠ []) (hlit : b ∉ p.lit) (r : List Char) :
    subAll p rep (b :: r) = b :: subAll p rep r := by
  rw [subAll_cons]
  have h0 : patMatchAt p (b :: r) = none := by
    simp only [patMatchAt]
    have hfalse : litCheck p.lit (b :: r) = false := by
      cases hp : p.lit with
      | nil => exact absurd hp hnil
      | cons x xs =>
        have hxb : ¬(x = b) := fun h => hlit (by rw [hp, h]; exact List.mem_cons_self _ _)
        simp [litCheck, hxb]
    simp [hfalse]
  rw [h0]

theorem subAll_append {p : SubPat} {b : Char} (rep : List Char)
    (hnil : p.lit ≠ []) (hlit : b ∉ p.lit) (hcls : p.cls b = false)
    (htail : b ∉ p.tail) :
    ∀ a r, subAll p rep (a ++ b :: r) = subAll p rep a ++ b :: subAll p rep r := by
  have key : ∀ N a r, a.length ≤ N →
      subAll p rep (a ++ b :: r) = subAll p rep a ++ b :: subAll p rep r := by
    intro N
    induction N with
    | zero =>
      intro a r ha
      have hs : a = [] := List.eq_nil_of_length_eq_zero (Nat.le_zero.mp ha)
      subst hs
      simp only [List.nil_append, subAll_nil]
      exact subAll_barrier_head rep hnil hlit r
    | succ N ih =>
      intro a r ha
      cases a with
      | nil =>
        simp only [List.nil_append, subAll_nil]
        exact subAll_barrier_head rep hnil hlit r
      | cons c cs =>
        rw [List.cons_append, subAll_cons, subAll_cons]
        rw [show (c :: (cs ++ b :: r)) = ((c :: cs) ++ b :: r) from rfl,
            patMatchAt_append hlit hcls htail (c :: cs) r]
        cases hm : patMatchAt p (c :: cs) with
        | some n =>
          simp only []
          have hn : n ≤ (c :: cs).length := patMatchAt_le hm
          have hn1 : n - 1 ≤ cs.length := by simp at hn; omega
          rw [dropAppendLe hn1]
          rw [ih (cs.drop (n - 1)) r
            (by simp only [List.length_drop]; simp at ha; omega)]
          simp [List.append_assoc]
        | none =>
          simp only []
          rw [ih cs r (by simp at ha; omega)]
          rfl
  intro a r
  exact key a.length a r le_rfl

theorem subAll_of_no_match {p : SubPat} {rep s : List Char}
    (h : hasMatch p s = false) : subAll p rep s = s := by
  induction s with
  | nil => rfl
  | cons c cs ih =>
    simp only [hasMatch, Bool.or_eq_false_iff] at h
    rw [subAll_cons]
    cases hm : patMatchAt p (c :: cs) with
    | some n => rw [hm] at h; simp at h
    | none => rw [ih h.2]

theorem not_mem_subAll {p : SubPat} {b : Char} {rep : List Char}
    (hr : b ∉ rep) :
    ∀ s : List Char, b ∉ s → b ∉ subAll p rep s := by
  have key : ∀ N (s : List Char), s.length ≤ N → b ∉ s → b ∉ subAll p rep s := by
    intro N
    induction N with
    | zero =>
      intro s h1 _
      have hs : s = [] := List.eq_nil_of_length_eq_zero (Nat.le_zero.mp h1)
      subst hs
      simp [subAll_nil]
    | succ N ih =>
      intro s h1 h2
      cases s with
      | nil => simp [subAll_nil]
      | cons c cs =>
        rw [subAll_cons]
        cases hm : patMatchAt p (c :: cs) with
        | some n =>
          simp only []
          intro hmem
          rcases List.mem_append.mp hmem with h | h
          · exact hr h
          · exact ih (cs.drop (n - 1))
              (by simp only [List.length_drop]; simp at h1; omega)
              (fun hx => h2 (List.mem_cons_of_mem _ (memOfDrop hx))) h
        | none =>
          simp only []
          intro hmem
          rcases List.mem_cons.mp hmem with h | h
          · exact h2 (h ▸ List.mem_cons_self _ _)
          · exact ih cs (by simp at h1; omega)
              (fun hx => h2 (List.mem_cons_of_mem _ hx)) h
  intro s
  exact key s.length s le_rfl

/-! ### Lemmas about splitting and joining on a separator -/

theorem joinB_single (b : Char) (l : List Char) : joinB b [l] = l := rfl

theorem joinB_cons_cons (b : Char) (l m : List Char) (ms : List (List Char)) :
    joinB b (l :: m :: ms) = l ++ b :: joinB b (m :: ms) := rfl

theorem splitB_ne_nil (b : Char) (s : List Char) : splitB b s ≠ [] := by
  induction s with
  | nil => simp [splitB]
  | cons c cs ih =>
    simp only [splitB]
    split
    · simp
    · cases h : splitB b cs <;> simp

theorem joinB_splitB (b : Char) (s : List Char) : joinB b (splitB b s) = s := by
  induction s with
  | nil => rfl
  | cons c cs ih =>
    simp only [splitB]
    by_cases h : c = b
    · rw [if_pos h]
      obtain ⟨m, ms, hls⟩ := List.exists_cons_of_ne_nil (splitB_ne_nil b cs)
      rw [hls, joinB_cons_cons, List.nil_append, ← hls, ih, h]
    · rw [if_neg h]
      obtain ⟨m, ms, hls⟩ := List.exists_cons_of_ne_nil (splitB_ne_nil b cs)
      rw [hls]
      rw [hls] at ih
      cases ms with
      | nil =>
        rw [joinB_single]
        rw [joinB_single] at ih
        rw [ih]
      | cons m2 ms2 =>
        rw [joinB_cons_cons, List.cons_append]
        rw [joinB_cons_cons] at ih
        rw [ih]

theorem splitB_not_mem (b : Char) (s : List Char) :
    ∀ l ∈ splitB b s, b ∉ l := by
  induction s with
  | nil =>
    intro l hl
    simp only [splitB, List.mem_singleton] at hl
    subst hl
    simp
  | cons c cs ih =>
    intro l hl
    simp only [splitB] at hl
    by_cases h : c = b
    · rw [if_pos h] at hl
      rcases List.mem_cons.mp hl with h1 | h1
      · subst h1; simp
      · exact ih l h1
    · rw [if_neg h] at hl
      obtain ⟨m, ms, hls⟩ := List.exists_cons_of_ne_nil (splitB_ne_nil b cs)
      rw [hls] at hl
      rcases List.mem_cons.mp hl with h1 | h1
      · subst h1
        intro hmem
        rcases List.mem_cons.mp hmem with h2 | h2
        · exact h h2.symm
        · exact ih m (by rw [hls]; exact List.mem_cons_self _ _) h2
      · exact ih l (by rw [hls]; exact List.mem_cons_of_mem _ h1)

theorem splitB_of_not_mem {b : Char} {l : List Char} (h : b ∉ l) :
    splitB b l = [l] := by
  induction l with
  | nil => rfl
  | cons c cs ih =>
    have hcb : ¬(c = b) := fun hh => h (by rw [hh]; exact List.mem_cons_self _ _)
    simp only [splitB, if_neg hcb]
    rw [ih fun hx => h (List.mem_cons_of_mem _ hx)]

theorem splitB_append {b : Char} {l : List Char} (h : b ∉ l) (t : List Char) :
    splitB b (l ++ b :: t) = l :: splitB b t := by
  induction l with
  | nil => simp [splitB]
  | cons c cs ih =>
    have hcb : ¬(c = b) := fun hh => h (by rw [hh]; exact List.mem_cons_self _ _)
    have ih2 := ih fun hx => h (List.mem_cons_of_mem _ hx)
    simp only [List.cons_append, splitB, if_neg hcb, List.append_eq, ih2]

theorem splitB_joinB {b : Char} : ∀ {ls : List (List Char)},
    (∀ l ∈ ls, b ∉ l) → ls ≠ [] → splitB b (joinB b ls) = ls := by
  intro ls
  induction ls with
  | nil => intro _ h; exact absurd rfl h
  | cons l ls ih =>
    intro h _
    cases ls with
    | nil =>
      rw [joinB_single]
      exact splitB_of_not_mem (h l (by simp))
    | cons m ms =>
      rw [joinB_cons_cons]
      rw [splitB_append (h l (by simp)) _]
      rw [ih (fun x hx => h x (List.mem_cons_of_mem _ hx)) (by simp)]

theorem joinB_map_subAll {p : SubPat} {b : Char} (rep : List Char)
    (hnil : p.lit ≠ []) (hlit : b ∉ p.lit) (hcls : p.cls b = false)
    (htail : b ∉ p.tail) :
    ∀ ls : List (List Char),
      subAll p rep (joinB b ls) = joinB b (ls.map (subAll p rep)) := by
  intro ls
  induction ls with
  | nil => simp [joinB, subAll_nil]
  | cons l ls ih =>
    cases ls with
    | nil => simp only [List.map_cons, List.map_nil, joinB_single]
    | cons m ms =>
      rw [joinB_cons_cons]
      rw [subAll_append rep hnil hlit hcls htail l (joinB b (m :: ms))]
      rw [ih, List.map_cons, List.map_cons, List.map_cons, joinB_cons_cons]

theorem splitB_subAll {p : SubPat} {b : Char} {rep : List Char}
    (hnil : p.lit ≠ []) (hlit : b ∉ p.lit) (hcls : p.cls b = false)
    (htail : b ∉ p.tail) (hrep : b ∉ rep) (s : List Char) :
    splitB b (subAll p rep s) = (splitB b s).map (subAll p rep) := by
  conv_lhs => rw [← joinB_splitB b s]
  rw [joinB_map_subAll rep hnil hlit hcls htail (splitB b s)]
  apply splitB_joinB
  · intro l hl
    rcases List.mem_map.mp hl with ⟨m, hm, rfl⟩
    exact not_mem_subAll hrep m (splitB_not_mem b s m hm)
  · simpa using splitB_ne_nil b s

/-! ### Per-line action of the whole patcher -/

/-- All the barrier conditions on a pattern/replacement pair needed for the
substitution to act line by line: no newline occurs in the pattern's pieces
or in the replacement, and the literal head is non-empty. -/
def nlSafe (pr : SubPat × List Char) : Prop :=
  pr.1.lit ≠ [] ∧ '\n' ∉ pr.1.lit ∧ pr.1.cls '\n' = false ∧
    '\n' ∉ pr.1.tail ∧ '\n' ∉ pr.2

theorem splitB_applyAll {prs : List (SubPat × List Char)}
    (hp : ∀ pr ∈ prs, nlSafe pr) (s : List Char) :
    splitB '\n' (applyAll prs s) =
      (splitB '\n' s).map (fun l => applyAll prs l) := by
  induction prs generalizing s with
  | nil =>
    simp only [applyAll, List.foldl_nil]
    exact (List.map_id _).symm
  | cons pr prs ih =>
    have h1 := hp pr (by simp)
    show splitB '\n' (applyAll prs (subAll pr.1 pr.2 s)) = _
    rw [ih (fun q hq => hp q (List.mem_cons_of_mem _ hq))]
    rw [splitB_subAll h1.1 h1.2.1 h1.2.2.1 h1.2.2.2.1 h1.2.2.2.2]
    rw [List.map_map]
    rfl

/-- A line on which none of the given patterns matches anywhere. -/
def cleanLine (prs : List (SubPat × List Char)) (l : List Char) : Bool :=
  prs.all fun pr => !(hasMatch pr.1 l)

theorem applyAll_clean {prs : List (SubPat × List Char)} {l : List Char}
    (h : cleanLine prs l = true) : applyAll prs l = l := by
  induction prs with
  | nil => rfl
  | cons pr prs ih =>
    simp only [cleanLine, List.all_cons, Bool.and_eq_true, Bool.not_eq_true'] at h
    have h1 : subAll pr.1 pr.2 l = l := subAll_of_no_match h.1
    show applyAll prs (subAll pr.1 pr.2 l) = l
    rw [h1]
    exact ih (by simp only [cleanLine]; exact h.2)

/-! ### Lemmas about decimal rendering and parsing -/

theorem digitCh_isDigit (k : Nat) : isDigitCh (digitCh k) = true := by
  unfold digitCh
  repeat' split
  all_goals decide

theorem digitCh_toNat {k : Nat} (h : k < 10) : (digitCh k).toNat = 48 + k := by
  interval_cases k <;> decide

/-- Companion of `natReprAuxF` on values: append the decimal digits of `n`
to the number `v`. -/
def pushNumF : Nat → Nat → Nat → Nat
  | 0, v, _ => v
  | f + 1, v, n => if n = 0 then v else pushNumF f v (n / 10) * 10 + n % 10

theorem foldl_natReprAuxF : ∀ (f n : Nat) (acc : List Char) (v : Nat),
    List.foldl (fun a c => a * 10 + (c.toNat - 48)) v (natReprAuxF f n acc) =
      List.foldl (fun a c => a * 10 + (c.toNat - 48)) (pushNumF f v n) acc := by
  intro f
  induction f with
  | zero => intro n acc v; rfl
  | succ f ih =>
    intro n acc v
    simp only [natReprAuxF, pushNumF]
    by_cases h : n = 0
    · simp [h]
    · rw [if_neg h, if_neg h, ih, List.foldl_cons,
        digitCh_toNat (Nat.mod_lt _ (by norm_num))]
      congr 1
      omega

theorem pushNumF_zero : ∀ f n, n ≤ f → pushNumF f 0 n = n := by
  intro f
  induction f with
  | zero => intro n h; interval_cases n; rfl
  | succ f ih =>
    intro n h
    by_cases hn : n = 0
    · simp [pushNumF, hn]
    · simp only [pushNumF, if_neg hn]
      have hdiv : n / 10 < n := Nat.div_lt_self (Nat.pos_of_ne_zero hn) (by norm_num)
      rw [ih (n / 10) (by omega)]
      have hmod := Nat.div_add_mod n 10
      omega

theorem parseNat_natRepr (n : Nat) : parseNat (natRepr n) = n := by
  by_cases h : n = 0
  · subst h; decide
  · unfold natRepr parseNat
    rw [if_neg h, foldl_natReprAuxF n n [] 0]
    simp only [List.foldl_nil]
    exact pushNumF_zero n n le_rfl

theorem natRepr_digits (n : Nat) : ∀ c ∈ natRepr n, isDigitCh c = true := by
  have key : ∀ f m acc, (∀ c ∈ acc, isDigitCh c = true) →
      ∀ c ∈ natReprAuxF f m acc, isDigitCh c = true := by
    intro f
    induction f with
    | zero => intro m acc h; exact h
    | succ f ih =>
      intro m acc h
      simp only [natReprAuxF]
      by_cases hm : m = 0
      · rw [if_pos hm]; exact h
      · rw [if_neg hm]
        refine ih (m / 10) _ ?_
        intro c hc
        rcases List.mem_cons.mp hc with h1 | h1
        · subst h1; exact digitCh_isDigit _
        · exact h c h1
  unfold natRepr
  by_cases h : n = 0
  · rw [if_pos h]
    intro c hc
    simp only [List.mem_singleton] at hc
    subst hc
    decide
  · rw [if_neg h]
    exact key n n [] (by simp)

theorem natRepr_ne_nil (n : Nat) : natRepr n ≠ [] := by
  have key : ∀ f m acc, acc ≠ [] → natReprAuxF f m acc ≠ [] := by
    intro f
    induction f with
    | zero => intro m acc h; exact h
    | succ f ih =>
      intro m acc h
      simp only [natReprAuxF]
      by_cases hm : m = 0
      · rw [if_pos hm]; exact h
      · rw [if_neg hm]; exact ih _ _ (by simp)
  unfold natRepr
  by_cases h : n = 0
  · rw [if_pos h]; simp
  · rw [if_neg h]
    cases n with
    | zero => exact absurd rfl h
    | succ m =>
      simp only [natReprAuxF]
      rw [if_neg h]
      exact key m _ _ (by simp)

/-! ### Version-token parsing lemmas -/

theorem grpDigits_all {ds : List Char} (hne : ds ≠ [])
    (hdig : ∀ c ∈ ds, isDigitCh c = true) : UV.grpDigits ds = some (ds, []) := by
  unfold UV.grpDigits
  rw [runLen_all hdig]
  rw [if_neg (by simp [List.length_eq_zero, hne])]
  simp [List.take_length, List.drop_length]

theorem grpDigits_stop {ds t : List Char} {b : Char} (hne : ds ≠ [])
    (hdig : ∀ c ∈ ds, isDigitCh c = true) (hb : isDigitCh b = false) :
    UV.grpDigits (ds ++ b :: t) = some (ds, b :: t) := by
  unfold UV.grpDigits
  rw [runLen_append_stop hb, runLen_all hdig]
  rw [if_neg (by simp [List.length_eq_zero, hne])]
  rw [List.take_left, List.drop_left]

theorem versionAt_render (v : UV.Version) :
    UV.versionAt (UV.version_string v) = some v := by
  cases v with
  | mk a b c d =>
    simp only [UV.version_string, UV.versionAt, if_true]
    rw [grpDigits_stop (natRepr_ne_nil a) (natRepr_digits a) (by decide)]
    simp only [Option.some_bind, UV.expectCh, if_true]
    rw [grpDigits_stop (natRepr_ne_nil b) (natRepr_digits b) (by decide)]
    simp only [Option.some_bind, UV.expectCh, if_true]
    rw [grpDigits_stop (natRepr_ne_nil c) (natRepr_digits c) (by decide)]
    simp only [Option.some_bind, UV.expectCh, if_true]
    rw [grpDigits_all (natRepr_ne_nil d) (natRepr_digits d)]
    simp only [Option.some_bind]
    rw [parseNat_natRepr, parseNat_natRepr, parseNat_natRepr, parseNat_natRepr]

/-! ### Claim C9 -/

/-- C9: for every 4-tuple of non-negative integers, rendering it with
`f'v{major}.{minor}.{patch}.{build}'` and re-parsing the token with the
version-extraction pattern `v(\d+)\.(\d+)\.(\d+)\.(\d+)` yields the same
tuple. -/
theorem c9_version_roundtrip (a b c d : Nat) :
    UV.findFirstVersion (UV.version_string ⟨a, b, c, d⟩) = some ⟨a, b, c, d⟩ := by
  have h := versionAt_render ⟨a, b, c, d⟩
  rw [show UV.version_string ⟨a, b, c, d⟩ =
      'v' :: (natRepr a ++ '.' :: (natRepr b ++ '.' :: (natRepr c ++ '.' :: natRepr d)))
      from rfl] at h ⊢
  simp only [UV.findFirstVersion, h]

/-! ### Claim C8 -/

/-- C8: version extraction returns the value of the first position in
document order at which the pattern `v(\d+)\.(\d+)\.(\d+)\.(\d+)` matches:
if no position before `i` matches and position `i` yields `v`, the result
is `v`; in particular, on a document where `v2.0.0.5` appears before
`v1.9.0.2`, the result is `(2,0,0,5)`. -/
theorem c8_first_match_in_order :
    (∀ (doc : List Char) (i : Nat) (v : UV.Version),
      (∀ j < i, UV.versionAt (doc.drop j) = none) →
      UV.versionAt (doc.drop i) = some v →
      UV.findFirstVersion doc = some v) ∧
    UV.findFirstVersion
      "## 2024-01-01 v2.0.0.5\nnotes\n## 2023-12-01 v1.9.0.2\n".data =
      some ⟨2, 0, 0, 5⟩ := by
  constructor
  · intro doc
    induction doc with
    | nil =>
      intro i v _ hi
      rw [List.drop_nil] at hi
      simp [UV.versionAt] at hi
    | cons c cs ih =>
      intro i v hlt hi
      cases i with
      | zero =>
        simp only [List.drop_zero] at hi
        simp only [UV.findFirstVersion, hi]
      | succ j =>
        have h0 : UV.versionAt (c :: cs) = none := by
          have := hlt 0 (Nat.succ_pos j)
          simpa using this
        simp only [UV.findFirstVersion, h0]
        refine ih j v (fun k hk => ?_) (by simpa using hi)
        have := hlt (k + 1) (by omega)
        simpa using this
  · decide

/-- Closed instance of the first part of `c8_first_match_in_order`: in
`"x v1.2.3.4 y"` the first match is at position 2 and extraction returns
`(1,2,3,4)`. -/
theorem c8_first_match_in_order_witness :
    UV.findFirstVersion "x v1.2.3.4 y".data = some ⟨1, 2, 3, 4⟩ :=
  c8_first_match_in_order.1 "x v1.2.3.4 y".data 2 ⟨1, 2, 3, 4⟩
    (by decide) (by decide)

/-! ### File-system lemmas -/

theorem fsLookup_write_self (fs : FileSys) (n c : List Char) :
    fsLookup (fsWrite fs n c) n = some c := by
  simp [fsWrite, fsLookup]

theorem fsLookup_erase_self (fs : FileSys) (n : List Char) :
    fsLookup (fsErase fs n) n = none := by
  induction fs with
  | nil => rfl
  | cons p fs ih =>
    simp only [fsErase]
    split
    · exact ih
    · rename_i h
      simp [fsLookup, h, ih]

/-! ### Stage-level computation lemmas for the orchestrator -/

theorem run_command_ok {ex : Exec} {cmd : List Char} (emsg : Option (List Char))
    (g : GB.St) (h : (ex cmd).exitCode = 0) :
    GB.run_command ex cmd emsg g =
      ({ g with trace := g.trace ++ [cmd] }, some (pyStrip (ex cmd).out)) := by
  simp [GB.run_command, h]

theorem run_command_fail_some {ex : Exec} {cmd : List Char} (m : List Char)
    (g : GB.St) (h : ¬((ex cmd).exitCode = 0)) :
    GB.run_command ex cmd (some m) g =
      ({ g with
          trace := g.trace ++ [cmd]
          reports := g.reports ++ [⟨m, cmd, (ex cmd).exitCode, (ex cmd).err⟩] },
        none) := by
  simp [GB.run_command, h]

theorem run_command_fail_none {ex : Exec} {cmd : List Char}
    (g : GB.St) (h : ¬((ex cmd).exitCode = 0)) :
    GB.run_command ex cmd none g = ({ g with trace := g.trace ++ [cmd] }, none) := by
  simp [GB.run_command, h]

theorem extract_latest_changes_fst (g : GB.St) :
    (GB.extract_latest_changes g).1 = g := by
  unfold GB.extract_latest_changes
  split
  · rfl
  · split
    · rfl
    · rfl

theorem stage_ok {ex : Exec} (g : GB.St) (h : (ex GB.addCmd).exitCode = 0) :
    GB.stage_all_changes ex g =
      ({ g with trace := g.trace ++ [GB.addCmd] }, some ()) := by
  simp only [GB.stage_all_changes]
  rw [run_command_ok _ _ h]

theorem stage_fail {ex : Exec} (g : GB.St) (h : ¬((ex GB.addCmd).exitCode = 0)) :
    GB.stage_all_changes ex g =
      ({ g with
          trace := g.trace ++ [GB.addCmd]
          reports := g.reports ++ [⟨"Échec de l'ajout des fichiers".data, GB.addCmd,
            (ex GB.addCmd).exitCode, (ex GB.addCmd).err⟩] },
        none) := by
  simp only [GB.stage_all_changes]
  rw [run_command_fail_some _ _ h]

theorem create_commit_ok {ex : Exec} (version changes today : List Char) (g : GB.St)
    (h : (ex GB.commitCmd).exitCode = 0) :
    GB.create_commit ex version changes today g =
      ({ g with
          fs := fsErase (fsWrite g.fs GB.tmpName
            ("Version ".data ++ version ++ " - ".data ++ today ++ '\n' :: '\n' :: changes)) GB.tmpName
          trace := g.trace ++ [GB.commitCmd]
          writes := g.writes ++ [(GB.tmpName,
            "Version ".data ++ version ++ " - ".data ++ today ++ '\n' :: '\n' :: changes)] },
        some ()) := by
  simp only [GB.create_commit]
  rw [run_command_ok _ _ h]
  simp only [fsLookup_write_self, Option.isSome_some, if_true]

theorem create_commit_fail {ex : Exec} (version changes today : List Char) (g : GB.St)
    (h : ¬((ex GB.commitCmd).exitCode = 0)) :
    GB.create_commit ex version changes today g =
      ({ g with
          fs := fsWrite g.fs GB.tmpName
            ("Version ".data ++ version ++ " - ".data ++ today ++ '\n' :: '\n' :: changes)
          trace := g.trace ++ [GB.commitCmd]
          reports := g.reports ++ [⟨"Échec de la création du commit".data, GB.commitCmd,
            (ex GB.commitCmd).exitCode, (ex GB.commitCmd).err⟩]
          writes := g.writes ++ [(GB.tmpName,
            "Version ".data ++ version ++ " - ".data ++ today ++ '\n' :: '\n' :: changes)] },
        none) := by
  simp only [GB.create_commit]
  rw [run_command_fail_some _ _ h]

theorem push_ok {ex : Exec} (remote branch : List Char) (g : GB.St)
    (h : (ex (GB.pushCmd remote branch)).exitCode = 0) :
    GB.push_to_github ex remote branch g =
      ({ g with trace := g.trace ++ [GB.pushCmd remote branch] }, some ()) := by
  simp only [GB.push_to_github]
  rw [run_command_ok _ _ h]

theorem push_fail {ex : Exec} (remote branch : List Char) (g : GB.St)
    (h : ¬((ex (GB.pushCmd remote branch)).exitCode = 0)) :
    GB.push_to_github ex remote branch g =
      ({ g with
          trace := g.trace ++ [GB.pushCmd remote branch]
          reports := g.reports ++ [⟨"Échec du push vers ".data ++ remote ++ '/' :: branch,
            GB.pushCmd remote branch, (ex (GB.pushCmd remote branch)).exitCode,
            (ex (GB.pushCmd remote branch)).err⟩] },
        none) := by
  simp only [GB.push_to_github]
  rw [run_command_fail_some _ _ h]

theorem pyStrip_nil : pyStrip [] = [] := rfl

theorem gb_update_version_ok (ex : Exec) (g : GB.St)
    (hU : (ex GB.updateCmd).exitCode = 0) :
    ∃ version,
      ((GB.searchPhrase (pyStrip (ex GB.updateCmd).out) = none →
        version = "version inconnue".data) ∧
      GB.update_version ex g =
        ({ g with trace := g.trace ++ [GB.updateCmd] }, some version)) := by
  simp only [GB.update_version]
  rw [run_command_ok _ _ hU]
  cases hP : GB.searchPhrase (pyStrip (ex GB.updateCmd).out) with
  | some v =>
    refine ⟨v, fun hc => ?_, ?_⟩
    · simp [hP] at hc
    · simp only []
      rw [hP]
  | none =>
    refine ⟨"version inconnue".data, fun _ => rfl, ?_⟩
    simp only []
    rw [hP]

theorem gb_main_clean (ex : Exec) (fs0 : FileSys) (today remote branch : List Char)
    (hU : (ex GB.updateCmd).exitCode = 0)
    (hS : (ex GB.statusCmd).exitCode = 0)
    (hC : pyStrip (ex GB.statusCmd).out = []) :
    GB.main ex true fs0 today remote branch =
      (⟨fs0, [GB.updateCmd, GB.statusCmd], [], []⟩, GB.Outcome.noChanges) := by
  obtain ⟨version, _, hup⟩ := gb_update_version_ok ex ⟨fs0, [], [], []⟩ hU
  simp only [GB.main]
  rw [if_neg (by decide : ¬((!true) = true))]
  rw [hup]
  simp only [List.nil_append]
  rw [run_command_ok _ _ hS]
  rw [hC]
  simp [pyStrip]

theorem gb_main_dirty (ex : Exec) (fs0 : FileSys) (today remote branch : List Char)
    (hU : (ex GB.updateCmd).exitCode = 0)
    (hS : (ex GB.statusCmd).exitCode = 0)
    (hD : (pyStrip (pyStrip (ex GB.statusCmd).out)).isEmpty = false) :
    ∃ version changes,
      (GB.searchPhrase (pyStrip (ex GB.updateCmd).out) = none →
        version = "version inconnue".data) ∧
      changes = (GB.extract_latest_changes ⟨fs0, [GB.updateCmd, GB.statusCmd], [], []⟩).2 ∧
      GB.main ex true fs0 today remote branch =
        (match GB.stage_all_changes ex ⟨fs0, [GB.updateCmd, GB.statusCmd], [], []⟩ with
         | (g3, none) => (g3, GB.Outcome.exitFail)
         | (g3, some _) =>
           match GB.create_commit ex version
               (GB.extract_latest_changes ⟨fs0, [GB.updateCmd, GB.statusCmd], [], []⟩).2
               today g3 with
           | (g4, none) => (g4, GB.Outcome.exitFail)
           | (g4, some _) =>
             match GB.push_to_github ex remote branch g4 with
             | (g5, none) => (g5, GB.Outcome.exitFail)
             | (g5, some _) => (g5, GB.Outcome.success)) := by
  obtain ⟨version, himp, hup⟩ := gb_update_version_ok ex ⟨fs0, [], [], []⟩ hU
  refine ⟨version, _, himp, rfl, ?_⟩
  simp only [GB.main]
  rw [if_neg (by decide : ¬((!true) = true))]
  rw [hup]
  simp only [List.nil_append]
  rw [run_command_ok _ _ hS]
  simp only []
  rw [hD]
  simp only [Bool.false_eq_true, if_false]
  rw [extract_latest_changes_fst]
  simp only [List.cons_append, List.nil_append]

/-! ### Distinctness of command lines -/

theorem ne_append_cons {c d : Char} (hcd : c ≠ d) {xs as ys bs : List Char}
    (hlen : xs.length = as.length) : xs ++ c :: ys ≠ as ++ d :: bs := by
  intro h
  obtain ⟨h1, h2⟩ := List.append_inj h hlen
  exact hcd (by injection h2)

theorem updateCmd_ne_push (remote branch : List Char) :
    GB.updateCmd ≠ GB.pushCmd remote branch := by
  rw [show GB.updateCmd = [] ++ 'p' :: "ython3 script/update_version.py".data from by decide]
  rw [show GB.pushCmd remote branch =
      [] ++ 'g' :: ("it push ".data ++ remote ++ ' ' :: branch) from rfl]
  exact ne_append_cons (by decide) rfl

theorem statusCmd_ne_push (remote branch : List Char) :
    GB.statusCmd ≠ GB.pushCmd remote branch := by
  rw [show GB.statusCmd = "git ".data ++ 's' :: "tatus --porcelain".data from by decide]
  rw [show GB.pushCmd remote branch =
      "git ".data ++ 'p' :: ("ush ".data ++ remote ++ ' ' :: branch) from rfl]
  exact ne_append_cons (by decide) (by decide)

theorem addCmd_ne_push (remote branch : List Char) :
    GB.addCmd ≠ GB.pushCmd remote branch := by
  rw [show GB.addCmd = "git ".data ++ 'a' :: "dd .".data from by decide]
  rw [show GB.pushCmd remote branch =
      "git ".data ++ 'p' :: ("ush ".data ++ remote ++ ' ' :: branch) from rfl]
  exact ne_append_cons (by decide) (by decide)

theorem commitCmd_ne_push (remote branch : List Char) :
    GB.commitCmd ≠ GB.pushCmd remote branch := by
  rw [show GB.commitCmd = "git ".data ++ 'c' :: "ommit -F .git_commit_msg.tmp".data from by decide]
  rw [show GB.pushCmd remote branch =
      "git ".data ++ 'p' :: ("ush ".data ++ remote ++ ' ' :: branch) from rfl]
  exact ne_append_cons (by decide) (by decide)

/-! ### Claim C7 -/

/-- C7: in every orchestrator run that reaches the commit stage (repository
present, synchronizer and status query and staging succeed, working tree
dirty) in which the commit command exits non-zero, the run terminates with
the failure exit (code 1) and the push command is never issued. -/
theorem c7_commit_fail_no_push (ex : Exec) (fs0 : FileSys)
    (today remote branch : List Char)
    (hU : (ex GB.updateCmd).exitCode = 0)
    (hS : (ex GB.statusCmd).exitCode = 0)
    (hD : (pyStrip (pyStrip (ex GB.statusCmd).out)).isEmpty = false)
    (hA : (ex GB.addCmd).exitCode = 0)
    (hC : ¬((ex GB.commitCmd).exitCode = 0)) :
    (GB.main ex true fs0 today remote branch).2 = GB.Outcome.exitFail ∧
    (GB.main ex true fs0 today remote branch).1.trace =
      [GB.updateCmd, GB.statusCmd, GB.addCmd, GB.commitCmd] ∧
    ∀ cmd ∈ (GB.main ex true fs0 today remote branch).1.trace,
      cmd ≠ GB.pushCmd remote branch := by
  obtain ⟨version, _, _, _, hmain⟩ := gb_main_dirty ex fs0 today remote branch hU hS hD
  rw [stage_ok _ hA] at hmain
  simp only [] at hmain
  rw [create_commit_fail version _ today _ hC] at hmain
  simp only [] at hmain
  rw [hmain]
  refine ⟨rfl, by simp, ?_⟩
  intro cmd hcm
  simp at hcm
  rcases hcm with rfl | rfl | rfl | rfl
  · exact updateCmd_ne_push remote branch
  · exact statusCmd_ne_push remote branch
  · exact addCmd_ne_push remote branch
  · exact commitCmd_ne_push remote branch

/-- Closed instance of `c7_commit_fail_no_push`: with a dirty tree and a
commit command exiting 1, the run fails and never issues the push command. -/
theorem c7_commit_fail_no_push_witness :
    (GB.main (fun c => if c = GB.commitCmd then ⟨1, [], "err".data⟩
        else ⟨0, "M x".data, []⟩) true [] "2024-01-01".data "origin".data "main".data).2 =
      GB.Outcome.exitFail ∧
    ∀ cmd ∈ (GB.main (fun c => if c = GB.commitCmd then ⟨1, [], "err".data⟩
        else ⟨0, "M x".data, []⟩) true [] "2024-01-01".data "origin".data "main".data).1.trace,
      cmd ≠ GB.pushCmd "origin".data "main".data :=
  ⟨(c7_commit_fail_no_push _ _ _ _ _ (by decide) (by decide) (by decide) (by decide)
      (by decide)).1,
   (c7_commit_fail_no_push _ _ _ _ _ (by decide) (by decide) (by decide) (by decide)
      (by decide)).2.2⟩

/-! ### Claim C4 -/

/-- C4 as stated is false: in this run the commit command fails and the
orchestrator terminates (exit 1) with `.git_commit_msg.tmp` still present —
`run_command` calls `sys.exit(1)` before `os.remove` is reached. -/
theorem c4_counterexample :
    (GB.main (fun c => if c = GB.commitCmd then ⟨1, [], "err".data⟩
        else ⟨0, "M x".data, []⟩) true [] "2024-01-01".data "origin".data "main".data).2 =
      GB.Outcome.exitFail ∧
    fsLookup (GB.main (fun c => if c = GB.commitCmd then ⟨1, [], "err".data⟩
        else ⟨0, "M x".data, []⟩) true [] "2024-01-01".data "origin".data
        "main".data).1.fs GB.tmpName ≠ none := by
  decide

/-- C4 (amended): in every run that reaches the commit stage, the transient
commit-message file is deleted before termination when the commit command
succeeds (whatever the push outcome); when the commit command fails, the run
exits with failure and the file is still present at termination. -/
theorem c4_amended_tmp_cleanup (ex : Exec) (fs0 : FileSys)
    (today remote branch : List Char)
    (hU : (ex GB.updateCmd).exitCode = 0)
    (hS : (ex GB.statusCmd).exitCode = 0)
    (hD : (pyStrip (pyStrip (ex GB.statusCmd).out)).isEmpty = false)
    (hA : (ex GB.addCmd).exitCode = 0) :
    ((ex GB.commitCmd).exitCode = 0 →
      fsLookup (GB.main ex true fs0 today remote branch).1.fs GB.tmpName = none) ∧
    (¬((ex GB.commitCmd).exitCode = 0) →
      (GB.main ex true fs0 today remote branch).2 = GB.Outcome.exitFail ∧
      (fsLookup (GB.main ex true fs0 today remote branch).1.fs GB.tmpName).isSome
        = true) := by
  obtain ⟨version, _, _, _, hmain⟩ := gb_main_dirty ex fs0 today remote branch hU hS hD
  rw [stage_ok _ hA] at hmain
  simp only [] at hmain
  constructor
  · intro hOk
    rw [create_commit_ok version _ today _ hOk] at hmain
    simp only [] at hmain
    by_cases hPush : (ex (GB.pushCmd remote branch)).exitCode = 0
    · rw [push_ok _ _ _ hPush] at hmain
      simp only [] at hmain
      rw [hmain]
      simp [fsLookup_erase_self]
    · rw [push_fail _ _ _ hPush] at hmain
      simp only [] at hmain
      rw [hmain]
      simp [fsLookup_erase_self]
  · intro hFail
    rw [create_commit_fail version _ today _ hFail] at hmain
    simp only [] at hmain
    rw [hmain]
    exact ⟨rfl, by simp [fsLookup_write_self]⟩

/-- Closed instance of `c4_amended_tmp_cleanup` (both sides exercised on
two runs: one with the commit succeeding, one with it failing). -/
theorem c4_amended_tmp_cleanup_witness :
    fsLookup (GB.main (fun _ => ⟨0, "M x".data, []⟩) true [] "2024-01-01".data
      "origin".data "main".data).1.fs GB.tmpName = none ∧
    (fsLookup (GB.main (fun c => if c = GB.commitCmd then ⟨1, [], "err".data⟩
        else ⟨0, "M x".data, []⟩) true [] "2024-01-01".data "origin".data
        "main".data).1.fs GB.tmpName).isSome = true :=
  ⟨(c4_amended_tmp_cleanup _ _ _ _ _ (by decide) (by decide) (by decide)
      (by decide)).1 (by decide),
   ((c4_amended_tmp_cleanup _ _ _ _ _ (by decide) (by decide) (by decide)
      (by decide)).2 (by decide)).2⟩

/-! ### Claim C10 -/

/-- C10: the orchestrator recovers the version by searching the phrase
`Version mise à jour à (v[\d\.]+)` in the synchronizer's stripped stdout;
when the synchronizer exits 0 but its output lacks the phrase, the run
carries on with the literal fallback `"version inconnue"`, so the message
written to the transient commit-message file starts with
`Version version inconnue - {today}`. -/
theorem c10_version_fallback (ex : Exec) (fs0 : FileSys)
    (today remote branch : List Char)
    (hU : (ex GB.updateCmd).exitCode = 0)
    (hP : GB.searchPhrase (pyStrip (ex GB.updateCmd).out) = none)
    (hS : (ex GB.statusCmd).exitCode = 0)
    (hD : (pyStrip (pyStrip (ex GB.statusCmd).out)).isEmpty = false)
    (hA : (ex GB.addCmd).exitCode = 0) :
    ∃ changes,
      (GB.main ex true fs0 today remote branch).1.writes =
        [(GB.tmpName,
          "Version version inconnue - ".data ++ today ++ '\n' :: '\n' :: changes)] := by
  obtain ⟨version, _, himp, _, hmain⟩ := gb_main_dirty ex fs0 today remote branch hU hS hD
  rw [himp hP] at hmain
  rw [stage_ok _ hA] at hmain
  simp only [] at hmain
  refine ⟨(GB.extract_latest_changes
    ⟨fs0, [GB.updateCmd, GB.statusCmd], [], []⟩).2, ?_⟩
  by_cases hC : (ex GB.commitCmd).exitCode = 0
  · rw [create_commit_ok _ _ today _ hC] at hmain
    simp only [] at hmain
    by_cases hPush : (ex (GB.pushCmd remote branch)).exitCode = 0
    · rw [push_ok _ _ _ hPush] at hmain
      simp only [] at hmain
      rw [hmain]
      rfl
    · rw [push_fail _ _ _ hPush] at hmain
      simp only [] at hmain
      rw [hmain]
      rfl
  · rw [create_commit_fail _ _ today _ hC] at hmain
    simp only [] at hmain
    rw [hmain]
    rfl

/-- Closed instance of `c10_version_fallback`: the synchronizer prints
output without the version phrase, and the commit message written to the
transient file uses the fallback version. -/
theorem c10_version_fallback_witness :
    ∃ changes,
      (GB.main (fun _ => ⟨0, "M x".data, []⟩) true [] "2024-01-01".data
        "origin".data "main".data).1.writes =
        [(GB.tmpName,
          "Version version inconnue - ".data ++ "2024-01-01".data
            ++ '\n' :: '\n' :: changes)] :=
  c10_version_fallback _ _ _ _ _ (by decide) (by decide) (by decide) (by decide)
    (by decide)

/-! ### Claim C6 -/

/-- C6 as stated is false: here the working-tree status query exits 2, which
is fatal (the run terminates with exit 1), yet no diagnostic report is
printed — `check_for_changes` calls `run_command` without an error message,
and the failure branch prints only when a message was supplied. -/
theorem c6_counterexample :
    (GB.main (fun c => if c = GB.statusCmd then ⟨2, [], "fatal".data⟩
        else ⟨0, "ok".data, []⟩) true [] "2024-01-01".data "origin".data
        "main".data).2 = GB.Outcome.exitFail ∧
    (GB.main (fun c => if c = GB.statusCmd then ⟨2, [], "fatal".data⟩
        else ⟨0, "ok".data, []⟩) true [] "2024-01-01".data "origin".data
        "main".data).1.reports = [] := by
  decide

/-- C6 (amended): every failing external command is reported with the
failing command, its exit code and its captured stderr before the run
terminates with exit 1 — except the working-tree status query, whose
failure terminates the run with exit 1 and no diagnostic report at all. -/
theorem c6_amended_reporting (ex : Exec) (fs0 : FileSys)
    (today remote branch : List Char) :
    ((¬((ex GB.updateCmd).exitCode = 0)) →
      (GB.main ex true fs0 today remote branch).2 = GB.Outcome.exitFail ∧
      (GB.main ex true fs0 today remote branch).1.reports =
        [⟨"Échec de la mise à jour de la version".data, GB.updateCmd,
          (ex GB.updateCmd).exitCode, (ex GB.updateCmd).err⟩]) ∧
    ((ex GB.updateCmd).exitCode = 0 → ¬((ex GB.statusCmd).exitCode = 0) →
      (GB.main ex true fs0 today remote branch).2 = GB.Outcome.exitFail ∧
      (GB.main ex true fs0 today remote branch).1.reports = []) ∧
    ((ex GB.updateCmd).exitCode = 0 → (ex GB.statusCmd).exitCode = 0 →
      (pyStrip (pyStrip (ex GB.statusCmd).out)).isEmpty = false →
      ¬((ex GB.addCmd).exitCode = 0) →
      (GB.main ex true fs0 today remote branch).2 = GB.Outcome.exitFail ∧
      (GB.main ex true fs0 today remote branch).1.reports =
        [⟨"Échec de l'ajout des fichiers".data, GB.addCmd,
          (ex GB.addCmd).exitCode, (ex GB.addCmd).err⟩]) ∧
    ((ex GB.updateCmd).exitCode = 0 → (ex GB.statusCmd).exitCode = 0 →
      (pyStrip (pyStrip (ex GB.statusCmd).out)).isEmpty = false →
      (ex GB.addCmd).exitCode = 0 → ¬((ex GB.commitCmd).exitCode = 0) →
      (GB.main ex true fs0 today remote branch).2 = GB.Outcome.exitFail ∧
      (GB.main ex true fs0 today remote branch).1.reports =
        [⟨"Échec de la création du commit".data, GB.commitCmd,
          (ex GB.commitCmd).exitCode, (ex GB.commitCmd).err⟩]) ∧
    ((ex GB.updateCmd).exitCode = 0 → (ex GB.statusCmd).exitCode = 0 →
      (pyStrip (pyStrip (ex GB.statusCmd).out)).isEmpty = false →
      (ex GB.addCmd).exitCode = 0 → (ex GB.commitCmd).exitCode = 0 →
      ¬((ex (GB.pushCmd remote branch)).exitCode = 0) →
      (GB.main ex true fs0 today remote branch).2 = GB.Outcome.exitFail ∧
      (GB.main ex true fs0 today remote branch).1.reports =
        [⟨"Échec du push vers ".data ++ remote ++ '/' :: branch,
          GB.pushCmd remote branch, (ex (GB.pushCmd remote branch)).exitCode,
          (ex (GB.pushCmd remote branch)).err⟩]) := by
  refine ⟨?_, ?_, ?_, ?_, ?_⟩
  · intro hUf
    simp only [GB.main]
    rw [if_neg (by decide : ¬((!true) = true))]
    simp only [GB.update_version]
    rw [run_command_fail_some _ _ hUf]
    simp only []
    refine ⟨?_, ?_⟩ <;> first | rfl | trivial
  · intro hU hSf
    obtain ⟨version, _, hup⟩ := gb_update_version_ok ex ⟨fs0, [], [], []⟩ hU
    simp only [GB.main]
    rw [if_neg (by decide : ¬((!true) = true))]
    rw [hup]
    simp only []
    rw [run_command_fail_none _ hSf]
    simp only []
    refine ⟨?_, ?_⟩ <;> first | rfl | trivial
  · intro hU hS hD hAf
    obtain ⟨version, _, _, _, hmain⟩ := gb_main_dirty ex fs0 today remote branch hU hS hD
    rw [stage_fail _ hAf] at hmain
    simp only [] at hmain
    rw [hmain]
    exact ⟨rfl, rfl⟩
  · intro hU hS hD hA hCf
    obtain ⟨version, _, _, _, hmain⟩ := gb_main_dirty ex fs0 today remote branch hU hS hD
    rw [stage_ok _ hA] at hmain
    simp only [] at hmain
    rw [create_commit_fail version _ today _ hCf] at hmain
    simp only [] at hmain
    rw [hmain]
    exact ⟨rfl, rfl⟩
  · intro hU hS hD hA hC hPf
    obtain ⟨version, _, _, _, hmain⟩ := gb_main_dirty ex fs0 today remote branch hU hS hD
    rw [stage_ok _ hA] at hmain
    simp only [] at hmain
    rw [create_commit_ok version _ today _ hC] at hmain
    simp only [] at hmain
    rw [push_fail _ _ _ hPf] at hmain
    simp only [] at hmain
    rw [hmain]
    exact ⟨rfl, rfl⟩

/-- Closed instances of all five parts of `c6_amended_reporting`, each on a
run failing at the corresponding stage. -/
theorem c6_amended_reporting_witness :
    ((GB.main (fun c => if c = GB.updateCmd then ⟨3, [], "u".data⟩
        else ⟨0, "M x".data, []⟩) true [] "d".data "o".data "m".data).1.reports =
      [⟨"Échec de la mise à jour de la version".data, GB.updateCmd, 3, "u".data⟩]) ∧
    ((GB.main (fun c => if c = GB.statusCmd then ⟨2, [], "s".data⟩
        else ⟨0, "M x".data, []⟩) true [] "d".data "o".data "m".data).1.reports = []) ∧
    ((GB.main (fun c => if c = GB.addCmd then ⟨4, [], "a".data⟩
        else ⟨0, "M x".data, []⟩) true [] "d".data "o".data "m".data).1.reports =
      [⟨"Échec de l'ajout des fichiers".data, GB.addCmd, 4, "a".data⟩]) ∧
    ((GB.main (fun c => if c = GB.commitCmd then ⟨5, [], "c".data⟩
        else ⟨0, "M x".data, []⟩) true [] "d".data "o".data "m".data).1.reports =
      [⟨"Échec de la création du commit".data, GB.commitCmd, 5, "c".data⟩]) ∧
    ((GB.main (fun c => if c = GB.pushCmd "o".data "m".data then ⟨6, [], "p".data⟩
        else ⟨0, "M x".data, []⟩) true [] "d".data "o".data "m".data).1.reports =
      [⟨"Échec du push vers ".data ++ "o".data ++ '/' :: "m".data,
        GB.pushCmd "o".data "m".data, 6, "p".data⟩]) :=
  ⟨((c6_amended_reporting _ _ _ _ _).1 (by decide)).2,
   ((c6_amended_reporting _ _ _ _ _).2.1 (by decide) (by decide)).2,
   ((c6_amended_reporting _ _ _ _ _).2.2.1 (by decide) (by decide) (by decide)
      (by decide)).2,
   ((c6_amended_reporting _ _ _ _ _).2.2.2.1 (by decide) (by decide) (by decide)
      (by decide) (by decide)).2,
   ((c6_amended_reporting _ _ _ _ _).2.2.2.2 (by decide) (by decide) (by decide)
      (by decide) (by decide) (by decide)).2⟩

/-! ### Claim C1 -/

theorem bs_main_clean (ex : Exec) (now : List Char)
    (hR : (ex BS.revCmd).exitCode = 0)
    (hA : (ex BS.addCmd).exitCode = 0)
    (hC : pyStrip (ex BS.statusCmd).out = []) :
    BS.backup_and_commit ex now =
      ([BS.revCmd, BS.addCmd, BS.statusCmd], BS.Outcome.noChanges) := by
  simp only [BS.backup_and_commit, BS.bsStep]
  rw [hR, hA, hC]
  simp

theorem revCmd_ne_commit (now : List Char) : BS.revCmd ≠ BS.commitCmd now := by
  rw [show BS.revCmd = "git ".data ++ 'r' :: "ev-parse --is-inside-work-tree".data
      from by decide]
  rw [show BS.commitCmd now =
      "git ".data ++ 'c' :: ("ommit -m \"Automated backup ".data ++ now ++ ['"'])
      from rfl]
  exact ne_append_cons (by decide) (by decide)

theorem addCmd_ne_commit (now : List Char) : BS.addCmd ≠ BS.commitCmd now := by
  rw [show BS.addCmd = "git ".data ++ 'a' :: "dd .".data from by decide]
  rw [show BS.commitCmd now =
      "git ".data ++ 'c' :: ("ommit -m \"Automated backup ".data ++ now ++ ['"'])
      from rfl]
  exact ne_append_cons (by decide) (by decide)

theorem statusCmd_ne_commit (now : List Char) : BS.statusCmd ≠ BS.commitCmd now := by
  rw [show BS.statusCmd = "git ".data ++ 's' :: "tatus --porcelain".data from by decide]
  rw [show BS.commitCmd now =
      "git ".data ++ 'c' :: ("ommit -m \"Automated backup ".data ++ now ++ ['"'])
      from rfl]
  exact ne_append_cons (by decide) (by decide)

/-- C1 as stated is false for the simple backup orchestrator
(`backup_script.py`): in this run every command succeeds and the status
query reports a fully clean tree, the run ends with the no-op outcome —
yet the stage command `git add .` has been issued, because
`backup_and_commit` stages before querying the status. -/
theorem c1_counterexample :
    pyStrip ((fun _ => (⟨0, [], []⟩ : CmdResult)) BS.statusCmd).out = [] ∧
    (BS.backup_and_commit (fun _ => ⟨0, [], []⟩) "x".data).2 =
      BS.Outcome.noChanges ∧
    BS.addCmd ∈ (BS.backup_and_commit (fun _ => ⟨0, [], []⟩) "x".data).1 := by
  decide

/-- C1 (amended): when the status query reports a fully clean tree, each
orchestrator terminates successfully with the distinct no-op outcome and
issues no commit and no push command; the GitHub-backup orchestrator also
issues no stage command, while the simple backup orchestrator has already
issued its stage command `git add .` before the status query. -/
theorem c1_amended_clean_tree :
    (∀ (ex : Exec) (fs0 : FileSys) (today remote branch : List Char),
      (ex GB.updateCmd).exitCode = 0 →
      (ex GB.statusCmd).exitCode = 0 →
      pyStrip (ex GB.statusCmd).out = [] →
      (GB.main ex true fs0 today remote branch).2 = GB.Outcome.noChanges ∧
      (GB.main ex true fs0 today remote branch).1.trace =
        [GB.updateCmd, GB.statusCmd] ∧
      ∀ cmd ∈ (GB.main ex true fs0 today remote branch).1.trace,
        cmd ≠ GB.addCmd ∧ cmd ≠ GB.commitCmd ∧ cmd ≠ GB.pushCmd remote branch) ∧
    (∀ (ex : Exec) (now : List Char),
      (ex BS.revCmd).exitCode = 0 →
      (ex BS.addCmd).exitCode = 0 →
      pyStrip (ex BS.statusCmd).out = [] →
      (BS.backup_and_commit ex now).2 = BS.Outcome.noChanges ∧
      (BS.backup_and_commit ex now).1 = [BS.revCmd, BS.addCmd, BS.statusCmd] ∧
      BS.addCmd ∈ (BS.backup_and_commit ex now).1 ∧
      ∀ cmd ∈ (BS.backup_and_commit ex now).1,
        cmd ≠ BS.commitCmd now ∧ cmd ≠ BS.pushCmd) := by
  constructor
  · intro ex fs0 today remote branch hU hS hC
    rw [gb_main_clean ex fs0 today remote branch hU hS hC]
    refine ⟨rfl, rfl, ?_⟩
    intro cmd hcm
    simp at hcm
    rcases hcm with rfl | rfl
    · exact ⟨by decide, by decide, updateCmd_ne_push remote branch⟩
    · exact ⟨by decide, by decide, statusCmd_ne_push remote branch⟩
  · intro ex now hR hA hC
    rw [bs_main_clean ex now hR hA hC]
    refine ⟨rfl, rfl, by decide, ?_⟩
    intro cmd hcm
    simp at hcm
    rcases hcm with rfl | rfl | rfl
    · exact ⟨revCmd_ne_commit now, by decide⟩
    · exact ⟨addCmd_ne_commit now, by decide⟩
    · exact ⟨statusCmd_ne_commit now, by decide⟩

/-- Closed instance of both halves of `c1_amended_clean_tree` on runs with
a clean status query. -/
theorem c1_amended_clean_tree_witness :
    (GB.main (fun _ => ⟨0, [], []⟩) true [] "d".data "o".data "m".data).2 =
      GB.Outcome.noChanges ∧
    (BS.backup_and_commit (fun _ => ⟨0, [], []⟩) "x".data).2 =
      BS.Outcome.noChanges :=
  ⟨(c1_amended_clean_tree.1 _ [] "d".data "o".data "m".data (by decide)
      (by decide) (by decide)).1,
   (c1_amended_clean_tree.2 _ "x".data (by decide) (by decide) (by decide)).1⟩

/-! ### Claim C5 -/

/-- C5: when the changelog text contains no token matching the version
pattern, extraction returns `none` and the synchronizer's `main` exits with
code 1 leaving the file system untouched; the config artifact is neither
read nor written. -/
theorem c5_no_version_fails_early (fs0 : FileSys) (today content : List Char)
    (hlk : fsLookup fs0 UV.changelogPath = some content)
    (hv : UV.findFirstVersion content = none) :
    (UV.extract_version_from_changelog ⟨fs0, [], []⟩).2 = none ∧
    (UV.main fs0 today).2 = false ∧
    (UV.main fs0 today).1.fs = fs0 ∧
    (UV.main fs0 today).1.writes = [] ∧
    UV.configPath ∉ (UV.main fs0 today).1.reads := by
  have hx : UV.extract_version_from_changelog ⟨fs0, [], []⟩ =
      ({ fs := fs0, reads := [UV.changelogPath], writes := [] }, none) := by
    simp [UV.extract_version_from_changelog, hlk, hv]
  have hm : UV.main fs0 today =
      ({ fs := fs0, reads := [UV.changelogPath], writes := [] }, false) := by
    simp only [UV.main]
    rw [hx]
  refine ⟨by rw [hx], by rw [hm], by rw [hm], by rw [hm], ?_⟩
  rw [hm]
  show UV.configPath ∉ [UV.changelogPath]
  decide

/-- Closed instance of `c5_no_version_fails_early` on a changelog with no
version token. -/
theorem c5_no_version_fails_early_witness :
    (UV.main [(UV.changelogPath, "rien ici".data)] "01/01/2020".data).2 = false ∧
    (UV.main [(UV.changelogPath, "rien ici".data)] "01/01/2020".data).1.fs =
      [(UV.changelogPath, "rien ici".data)] ∧
    (UV.main [(UV.changelogPath, "rien ici".data)] "01/01/2020".data).1.writes = [] :=
  ⟨(c5_no_version_fails_early _ _ "rien ici".data (by decide) (by decide)).2.1,
   (c5_no_version_fails_early _ _ "rien ici".data (by decide) (by decide)).2.2.1,
   (c5_no_version_fails_early _ _ "rien ici".data (by decide) (by decide)).2.2.2.1⟩

/-! ### Newline-safety of the six substitutions -/

theorem nl_not_mem_natRepr (n : Nat) : '\n' ∉ natRepr n := by
  intro h
  exact absurd (natRepr_digits n '\n' h) (by decide)

theorem nl_not_mem_version_string (v : UV.Version) : '\n' ∉ UV.version_string v := by
  intro h
  simp only [UV.version_string, List.mem_cons, List.mem_append] at h
  rcases h with h | h
  · exact absurd h (by decide)
  rcases h with h | h
  · exact nl_not_mem_natRepr _ h
  rcases h with h | h
  · exact absurd h (by decide)
  rcases h with h | h
  · exact nl_not_mem_natRepr _ h
  rcases h with h | h
  · exact absurd h (by decide)
  rcases h with h | h
  · exact nl_not_mem_natRepr _ h
  rcases h with h | h
  · exact absurd h (by decide)
  · exact nl_not_mem_natRepr _ h

theorem nlSafe_mk {p : SubPat} {rep : List Char} (h1 : p.lit ≠ [])
    (h2 : '\n' ∉ p.lit) (h3 : p.cls '\n' = false) (h4 : '\n' ∉ p.tail)
    (h5 : '\n' ∉ rep) : nlSafe (p, rep) :=
  ⟨h1, h2, h3, h4, h5⟩

theorem nl_not_mem_append {a b : List Char} (ha : '\n' ∉ a) (hb : '\n' ∉ b) :
    '\n' ∉ a ++ b := by
  intro h
  rcases List.mem_append.mp h with h | h
  · exact ha h
  · exact hb h

theorem nlSafe_verPats (v : UV.Version) (today : List Char) (ht : '\n' ∉ today) :
    ∀ pr ∈ UV.verPats v today, nlSafe pr := by
  intro pr hpr
  simp only [UV.verPats, List.mem_cons, List.not_mem_nil, or_false] at hpr
  rcases hpr with rfl | rfl | rfl | rfl | rfl | rfl
  · exact nlSafe_mk (by decide) (by decide) (by decide) (by decide)
      (nl_not_mem_append (by decide) (nl_not_mem_natRepr _))
  · exact nlSafe_mk (by decide) (by decide) (by decide) (by decide)
      (nl_not_mem_append (by decide) (nl_not_mem_natRepr _))
  · exact nlSafe_mk (by decide) (by decide) (by decide) (by decide)
      (nl_not_mem_append (by decide) (nl_not_mem_natRepr _))
  · exact nlSafe_mk (by decide) (by decide) (by decide) (by decide)
      (nl_not_mem_append (by decide) (nl_not_mem_natRepr _))
  · exact nlSafe_mk (by decide) (by decide) (by decide) (by decide)
      (nl_not_mem_append
        (nl_not_mem_append (by decide) (nl_not_mem_version_string v)) (by decide))
  · exact nlSafe_mk (by decide) (by decide) (by decide) (by decide)
      (nl_not_mem_append (nl_not_mem_append (by decide) ht) (by decide))

/-! ### Claim C2 -/

/-- C2: for every config-artifact text containing all six recognized
definitions and every version tuple, the patcher changes only the matched
definition text: the output has the same number of lines, and every line on
which none of the six patterns matches is byte-for-byte identical to the
corresponding input line. -/
theorem c2_frame_preservation (v : UV.Version) (today content : List Char)
    (ht : '\n' ∉ today)
    (_hsix : (UV.verPats v today).all (fun pr => hasMatch pr.1 content) = true) :
    (splitB '\n' (UV.update_config_content v today content)).length =
      (splitB '\n' content).length ∧
    ∀ (i : Nat) (l : List Char),
      (splitB '\n' content)[i]? = some l →
      cleanLine (UV.verPats v today) l = true →
      (splitB '\n' (UV.update_config_content v today content))[i]? = some l := by
  have hmap : splitB '\n' (UV.update_config_content v today content) =
      (splitB '\n' content).map (fun l => applyAll (UV.verPats v today) l) :=
    splitB_applyAll (nlSafe_verPats v today ht) content
  constructor
  · rw [hmap, List.length_map]
  · intro i l hi hcl
    rw [hmap, List.getElem?_map, hi]
    simp only [Option.map_some']
    rw [applyAll_clean hcl]

/-- Closed instance of `c2_frame_preservation`: on the golden artifact the
trailing line `int x = 5;`, which matches none of the six patterns, is
unchanged by the patcher. -/
theorem c2_frame_preservation_witness :
    ('\n' ∉ "01/01/2020".data) ∧
    ((UV.verPats ⟨2, 0, 0, 5⟩ "01/01/2020".data).all
      (fun pr => hasMatch pr.1 ("#define VERSION_MAJOR 1\n#define VERSION_MINOR 0\n#define VERSION_PATCH 0\n#define VERSION_BUILD 3\n#define VERSION_STRING \"v1.0.0.3\"\n#define BUILD_DATE \"01/01/2019\"\nint x = 5;".data)) = true) ∧
    (splitB '\n' (UV.update_config_content ⟨2, 0, 0, 5⟩ "01/01/2020".data
      ("#define VERSION_MAJOR 1\n#define VERSION_MINOR 0\n#define VERSION_PATCH 0\n#define VERSION_BUILD 3\n#define VERSION_STRING \"v1.0.0.3\"\n#define BUILD_DATE \"01/01/2019\"\nint x = 5;".data)))[6]? =
      some ("int x = 5;".data) :=
  ⟨by decide, by decide,
   (c2_frame_preservation ⟨2, 0, 0, 5⟩ "01/01/2020".data _ (by decide)
      (by decide)).2 6 "int x = 5;".data (by decide) (by decide)⟩

/-! ### Claim C3 -/

/-- C3 as stated is false: on an artifact with two occurrences of the
`VERSION_MAJOR` definition, the patcher (which uses `re.sub` with its
default count of 0, replacing every occurrence) rewrites both lines — the
later occurrence is not left unchanged. -/
theorem c3_counterexample :
    splitB '\n' (UV.update_config_content ⟨2, 0, 0, 5⟩ "01/01/2020".data
      "#define VERSION_MAJOR 1\n#define VERSION_MAJOR 1".data) =
      ["#define VERSION_MAJOR 2".data, "#define VERSION_MAJOR 2".data] := by
  decide


/-! ### Head-character barrier lemmas

All six macro patterns have a literal head starting with `'#'`, a character
that occurs nowhere else in the pattern's pieces, in digit payloads or in
the replacements' tails.  Consequently a match can only start at a `'#'`,
matches never overlap, and the substitution distributes over any decomposition
`x ++ occurrence ++ y`.  The lemmas of this section make that precise. -/

theorem litCheck_self_append : ∀ (q w : List Char), litCheck q (q ++ w) = true := by
  intro q
  induction q with
  | nil => intro w; rfl
  | cons a as ih =>
    intro w
    show (a == a && litCheck as (as ++ w)) = true
    simp [ih]

/-- True when the two literals differ at some position below both lengths;
then the first can never be an initial segment of the second, whatever
follows it. -/
def litClash : List Char → List Char → Bool
  | [], _ => false
  | _ :: _, [] => false
  | a :: as, b :: bs => if a = b then litClash as bs else true

theorem litClash_false {q u : List Char} (h : litClash q u = true) :
    ∀ w, litCheck q (u ++ w) = false := by
  induction q generalizing u with
  | nil => simp [litClash] at h
  | cons a as ih =>
    cases u with
    | nil => simp [litClash] at h
    | cons b bs =>
      intro w
      simp only [litClash] at h
      by_cases hab : a = b
      · rw [if_pos hab] at h
        show (a == b && litCheck as (bs ++ w)) = false
        rw [ih h w]
        simp
      · show (a == b && litCheck as (bs ++ w)) = false
        simp [hab]

theorem patMatchAt_none_of_litCheck {p : SubPat} {s : List Char}
    (h : litCheck p.lit s = false) : patMatchAt p s = none := by
  simp [patMatchAt, h]

theorem patMatchAt_none_of_head_ne {p : SubPat} {h : Char} {ltl : List Char}
    (hl : p.lit = h :: ltl) {c : Char} (hc : ¬(c = h)) (cs : List Char) :
    patMatchAt p (c :: cs) = none := by
  apply patMatchAt_none_of_litCheck
  rw [hl]
  show (h == c && litCheck ltl cs) = false
  have : ¬(h = c) := fun hh => hc hh.symm
  simp [this]

theorem litCheck_head_stop {h : Char} {ltl : List Char} (h1 : h ∉ ltl) :
    ∀ (u r : List Char), u ≠ [] →
      litCheck (h :: ltl) (u ++ h :: r) = litCheck (h :: ltl) u := by
  intro u r hu
  cases u with
  | nil => exact absurd rfl hu
  | cons c cs =>
    show (h == c && litCheck ltl (cs ++ h :: r)) = (h == c && litCheck ltl cs)
    rw [litCheck_append_stop h1]

theorem patMatchAt_head_stop {p : SubPat} {h : Char} {ltl : List Char}
    (hl : p.lit = h :: ltl) (h1 : h ∉ ltl) (h2 : p.cls h = false)
    (h3 : h ∉ p.tail) :
    ∀ (u r : List Char), u ≠ [] →
      patMatchAt p (u ++ h :: r) = patMatchAt p u := by
  intro u r hu
  simp only [patMatchAt]
  rw [hl, litCheck_head_stop h1 u r hu]
  by_cases hc : litCheck (h :: ltl) u = true
  · have hle : (h :: ltl).length ≤ u.length := litCheck_le hc
    rw [dropAppendLe hle]
    rw [runLen_append_stop h2]
    rw [dropAppendLe (runLen_le _ _)]
    rw [litCheck_append_stop h3]
  · simp [hc]

theorem runLen_append_all {cls : Char → Bool} {a : List Char}
    (h : ∀ c ∈ a, cls c = true) (y : List Char) :
    runLen cls (a ++ y) = a.length + runLen cls y := by
  induction a with
  | nil => simp [runLen]
  | cons c cs ih =>
    simp only [List.cons_append, runLen, h c (by simp), if_true, List.length_cons,
      List.append_eq]
    rw [ih fun d hd => h d (List.mem_cons_of_mem _ hd)]
    omega

theorem subAll_walk {p : SubPat} {h : Char} {ltl : List Char} (rep : List Char)
    (hl : p.lit = h :: ltl) :
    ∀ (mr y : List Char), (∀ c ∈ mr, ¬(c = h)) →
      subAll p rep (mr ++ y) = mr ++ subAll p rep y := by
  intro mr
  induction mr with
  | nil => intro y _; simp
  | cons c cs ih =>
    intro y hmr
    rw [List.cons_append, subAll_cons]
    cases hm : patMatchAt p (c :: (cs ++ y)) with
    | some n =>
      rw [patMatchAt_none_of_head_ne hl (hmr c (List.mem_cons_self _ _)) _] at hm
      exact Option.noConfusion hm
    | none =>
      simp only []
      rw [ih y fun d hd => hmr d (List.mem_cons_of_mem _ hd)]
      rfl

theorem subAll_seg_none {p : SubPat} {h : Char} {ltl : List Char} (rep : List Char)
    (hl : p.lit = h :: ltl) {mr y : List Char} (hmr : ∀ c ∈ mr, ¬(c = h))
    (hnm : patMatchAt p (h :: (mr ++ y)) = none) :
    subAll p rep (h :: (mr ++ y)) = (h :: mr) ++ subAll p rep y := by
  rw [subAll_cons, hnm]
  simp only []
  rw [subAll_walk rep hl mr y hmr]
  rfl

theorem subAll_seg_match {p : SubPat} (rep : List Char) {mr y : List Char}
    (hmt : patMatchAt p (h :: (mr ++ y)) = some (mr.length + 1)) :
    subAll p rep (h :: (mr ++ y)) = rep ++ subAll p rep y := by
  rw [subAll_cons, hmt]
  simp only []
  congr 1
  rw [show mr.length + 1 - 1 = mr.length from rfl]
  rw [List.drop_left]

theorem subAll_append_headed {p : SubPat} {h : Char} {ltl : List Char}
    (rep : List Char) (hl : p.lit = h :: ltl) (h1 : h ∉ ltl)
    (h2 : p.cls h = false) (h3 : h ∉ p.tail) :
    ∀ x zr, subAll p rep (x ++ h :: zr) =
      subAll p rep x ++ subAll p rep (h :: zr) := by
  have key : ∀ N x zr, x.length ≤ N →
      subAll p rep (x ++ h :: zr) = subAll p rep x ++ subAll p rep (h :: zr) := by
    intro N
    induction N with
    | zero =>
      intro x zr hx
      have hs : x = [] := List.eq_nil_of_length_eq_zero (Nat.le_zero.mp hx)
      subst hs
      simp [subAll_nil]
    | succ N ih =>
      intro x zr hx
      cases x with
      | nil => simp [subAll_nil]
      | cons c cs =>
        rw [List.cons_append, subAll_cons, subAll_cons]
        rw [show (c :: (cs ++ h :: zr)) = ((c :: cs) ++ h :: zr) from rfl,
            patMatchAt_head_stop hl h1 h2 h3 (c :: cs) zr (by simp)]
        cases hm : patMatchAt p (c :: cs) with
        | some n =>
          simp only []
          have hn : n ≤ (c :: cs).length := patMatchAt_le hm
          have hn1 : n - 1 ≤ cs.length := by simp at hn; omega
          rw [dropAppendLe hn1]
          rw [ih (cs.drop (n - 1)) zr
            (by simp only [List.length_drop]; simp at hx; omega)]
          simp [List.append_assoc]
        | none =>
          simp only []
          rw [ih cs zr (by simp at hx; omega)]
          rfl
  intro x zr
  exact key x.length x zr le_rfl

theorem patMatchAt_occ {p : SubPat} {ltl : List Char} (hl : p.lit = '#' :: ltl)
    {d y : List Char} (hd : d ≠ [])
    (hrun : runLen p.cls (d ++ (p.tail ++ y)) = d.length) :
    patMatchAt p ('#' :: ((ltl ++ (d ++ p.tail)) ++ y)) =
      some ((ltl ++ (d ++ p.tail)).length + 1) := by
  have hs : ('#' :: ((ltl ++ (d ++ p.tail)) ++ y)) =
      ('#' :: ltl) ++ (d ++ (p.tail ++ y)) := by
    simp [List.append_assoc]
  simp only [patMatchAt]
  rw [hl, hs, litCheck_self_append, if_pos rfl]
  rw [List.drop_left, hrun]
  rw [if_neg (by simp [List.length_eq_zero, hd])]
  rw [List.drop_left, litCheck_self_append, if_pos rfl]
  congr 1
  simp only [List.length_cons, List.length_append]
  omega

/-- The common shape of all six macro patterns: the literal head starts with
`'#'`, and `'#'` occurs nowhere later in the literal, is not in the character
class, and is not in the literal tail. -/
def HashPat (p : SubPat) : Prop :=
  ∃ ltl, p.lit = '#' :: ltl ∧ '#' ∉ ltl ∧ p.cls '#' = false ∧ '#' ∉ p.tail

theorem segSkip_pack {p : SubPat} (rep : List Char) (hp : HashPat p)
    {mr : List Char} (hmr : ∀ c ∈ mr, ¬(c = '#'))
    (hnm : ∀ w, litCheck p.lit (('#' :: mr) ++ w) = false) :
    ∀ x y, subAll p rep (x ++ ('#' :: mr) ++ y) =
      subAll p rep x ++ ('#' :: mr) ++ subAll p rep y := by
  obtain ⟨ltl, hl, h1, h2, h3⟩ := hp
  intro x y
  rw [show x ++ ('#' :: mr) ++ y = x ++ '#' :: (mr ++ y) by simp]
  rw [subAll_append_headed rep hl h1 h2 h3 x (mr ++ y)]
  rw [subAll_seg_none rep hl hmr (patMatchAt_none_of_litCheck (hnm y))]
  simp [List.append_assoc]

theorem segHit_pack {p : SubPat} (rep : List Char) (hp : HashPat p)
    {mr y : List Char}
    (hmt : patMatchAt p ('#' :: (mr ++ y)) = some (mr.length + 1)) :
    ∀ x, subAll p rep (x ++ ('#' :: mr) ++ y) =
      subAll p rep x ++ rep ++ subAll p rep y := by
  obtain ⟨ltl, hl, h1, h2, h3⟩ := hp
  intro x
  rw [show x ++ ('#' :: mr) ++ y = x ++ '#' :: (mr ++ y) by simp]
  rw [subAll_append_headed rep hl h1 h2 h3 x (mr ++ y)]
  rw [subAll_seg_match rep hmt]
  simp [List.append_assoc]

theorem segSkip_of_clash {p : SubPat} (rep : List Char) (hp : HashPat p)
    {lk lt rest : List Char} (hlk : lk = '#' :: lt) (hlt : ∀ c ∈ lt, ¬(c = '#'))
    (hcl : litClash p.lit lk = true) (hrest : ∀ c ∈ rest, ¬(c = '#')) :
    ∀ x y, subAll p rep (x ++ (lk ++ rest) ++ y) =
      subAll p rep x ++ (lk ++ rest) ++ subAll p rep y := by
  intro x y
  have hmr : ∀ c ∈ lt ++ rest, ¬(c = '#') := by
    intro c hc
    rcases List.mem_append.mp hc with h | h
    · exact hlt c h
    · exact hrest c h
  have hnm : ∀ w, litCheck p.lit (('#' :: (lt ++ rest)) ++ w) = false := by
    intro w
    have : ('#' :: (lt ++ rest)) ++ w = lk ++ (rest ++ w) := by
      rw [hlk]; simp [List.append_assoc]
    rw [this]
    exact litClash_false hcl (rest ++ w)
  have := segSkip_pack rep hp hmr hnm x y
  rw [show ('#' :: (lt ++ rest)) = lk ++ rest by rw [hlk]; simp] at this
  exact this

theorem runLen0_subAll {p : SubPat} {rep r' : List Char}
    (hrep : rep = '#' :: r') :
    ∀ s : List Char, runLen isDigitCh s = 0 →
      runLen isDigitCh (subAll p rep s) = 0 := by
  intro s hs
  cases s with
  | nil => simpa [subAll_nil] using hs
  | cons c cs =>
    have hc : isDigitCh c = false := by
      by_cases h : isDigitCh c = true
      · rw [runLen, if_pos h] at hs
        omega
      · simpa using h
    rw [subAll_cons]
    cases hm : patMatchAt p (c :: cs) with
    | some n =>
      simp only []
      rw [hrep, List.cons_append, runLen,
        if_neg (by simp [isDigitCh] : ¬(isDigitCh '#' = true))]
    | none =>
      simp only [runLen, hc]
      simp

theorem applyAll_skip (B : List (SubPat × List Char)) (R : List Char)
    (hB : ∀ pr ∈ B, ∀ x y, subAll pr.1 pr.2 (x ++ R ++ y) =
      subAll pr.1 pr.2 x ++ R ++ subAll pr.1 pr.2 y) :
    ∀ x y, applyAll B (x ++ R ++ y) = applyAll B x ++ R ++ applyAll B y := by
  induction B with
  | nil => intro x y; rfl
  | cons pr B ih =>
    intro x y
    show applyAll B (subAll pr.1 pr.2 (x ++ R ++ y)) = _
    rw [hB pr (List.mem_cons_self _ _) x y]
    exact ih (fun q hq => hB q (List.mem_cons_of_mem _ hq)) _ _

theorem applyAll_replace_seg (Inv : List Char → Prop)
    (P : SubPat × List Char) (B : List (SubPat × List Char)) (M : List Char)
    (hhit : ∀ x y, Inv y → subAll P.1 P.2 (x ++ M ++ y) =
      subAll P.1 P.2 x ++ P.2 ++ subAll P.1 P.2 y)
    (hB : ∀ pr ∈ B, ∀ x y, subAll pr.1 pr.2 (x ++ P.2 ++ y) =
      subAll pr.1 pr.2 x ++ P.2 ++ subAll pr.1 pr.2 y) :
    ∀ A : List (SubPat × List Char),
      (∀ pr ∈ A, ∀ x y, subAll pr.1 pr.2 (x ++ M ++ y) =
        subAll pr.1 pr.2 x ++ M ++ subAll pr.1 pr.2 y) →
      (∀ pr ∈ A, ∀ s, Inv s → Inv (subAll pr.1 pr.2 s)) →
      ∀ x y, Inv y →
        applyAll (A ++ P :: B) (x ++ M ++ y) =
          applyAll (A ++ P :: B) x ++ P.2 ++ applyAll (A ++ P :: B) y := by
  intro A
  induction A with
  | nil =>
    intro _ _ x y hy
    show applyAll B (subAll P.1 P.2 (x ++ M ++ y)) = _
    rw [hhit x y hy]
    exact applyAll_skip B P.2 hB _ _
  | cons pr A ih =>
    intro hA hAinv x y hy
    show applyAll (A ++ P :: B) (subAll pr.1 pr.2 (x ++ M ++ y)) = _
    rw [hA pr (List.mem_cons_self _ _) x y]
    exact ih (fun q hq => hA q (List.mem_cons_of_mem _ hq))
      (fun q hq => hAinv q (List.mem_cons_of_mem _ hq))
      (subAll pr.1 pr.2 x) (subAll pr.1 pr.2 y)
      (hAinv pr (List.mem_cons_self _ _) y hy)

theorem litClash_of_append {q u : List Char} (h : litClash q u = true)
    (w : List Char) : litClash q (u ++ w) = true := by
  induction q generalizing u with
  | nil => simp [litClash] at h
  | cons a as ih =>
    cases u with
    | nil => simp [litClash] at h
    | cons b bs =>
      simp only [litClash, List.cons_append] at h ⊢
      by_cases hab : a = b
      · rw [if_pos hab] at h ⊢
        exact ih h
      · rw [if_neg hab]

theorem cons_head_append {c : Char} {l l' : List Char} (h : l = c :: l')
    (t : List Char) : l ++ t = c :: (l' ++ t) := by
  rw [h]
  rfl

theorem hash_not_of_cls {cls : Char → Bool} (hc : cls '#' = false)
    {ds : List Char} (hds : ∀ c ∈ ds, cls c = true) :
    ∀ c ∈ ds, ¬(c = '#') := by
  intro c h he
  subst he
  rw [hds '#' h] at hc
  exact Bool.noConfusion hc

theorem hash_not_mem_append {a b : List Char} (ha : ∀ c ∈ a, ¬(c = '#'))
    (hb : ∀ c ∈ b, ¬(c = '#')) : ∀ c ∈ a ++ b, ¬(c = '#') := by
  intro c hc
  rcases List.mem_append.mp hc with h | h
  · exact ha c h
  · exact hb c h

theorem hashFree_natRepr (n : Nat) : ∀ c ∈ natRepr n, ¬(c = '#') := by
  intro c hc he
  subst he
  exact absurd (natRepr_digits n '#' hc) (by decide)

theorem hashFree_version_string (v : UV.Version) :
    ∀ c ∈ UV.version_string v, ¬(c = '#') := by
  intro c h he
  subst he
  simp only [UV.version_string, List.mem_cons, List.mem_append] at h
  rcases h with h | h
  · exact absurd h (by decide)
  rcases h with h | h
  · exact absurd (natRepr_digits _ _ h) (by decide)
  rcases h with h | h
  · exact absurd h (by decide)
  rcases h with h | h
  · exact absurd (natRepr_digits _ _ h) (by decide)
  rcases h with h | h
  · exact absurd h (by decide)
  rcases h with h | h
  · exact absurd (natRepr_digits _ _ h) (by decide)
  rcases h with h | h
  · exact absurd h (by decide)
  · exact absurd (natRepr_digits _ _ h) (by decide)

theorem lit1_head :
    "#define VERSION_MAJOR ".data = '#' :: "define VERSION_MAJOR ".data := by
  decide

theorem lit2_head :
    "#define VERSION_MINOR ".data = '#' :: "define VERSION_MINOR ".data := by
  decide

theorem lit3_head :
    "#define VERSION_PATCH ".data = '#' :: "define VERSION_PATCH ".data := by
  decide

theorem lit4_head :
    "#define VERSION_BUILD ".data = '#' :: "define VERSION_BUILD ".data := by
  decide

theorem lit5_head :
    "#define VERSION_STRING \"v".data =
      '#' :: "define VERSION_STRING \"v".data := by
  decide

theorem lit5s_head :
    "#define VERSION_STRING \"".data =
      '#' :: "define VERSION_STRING \"".data := by
  decide

theorem lit6_head :
    "#define BUILD_DATE \"".data = '#' :: "define BUILD_DATE \"".data := by
  decide

theorem hashPat_patMajor : HashPat UV.patMajor :=
  ⟨"define VERSION_MAJOR ".data, by decide, by decide, by decide, by decide⟩

theorem hashPat_patMinor : HashPat UV.patMinor :=
  ⟨"define VERSION_MINOR ".data, by decide, by decide, by decide, by decide⟩

theorem hashPat_patPatchNum : HashPat UV.patPatchNum :=
  ⟨"define VERSION_PATCH ".data, by decide, by decide, by decide, by decide⟩

theorem hashPat_patBuildNum : HashPat UV.patBuildNum :=
  ⟨"define VERSION_BUILD ".data, by decide, by decide, by decide, by decide⟩

theorem hashPat_patVerString : HashPat UV.patVerString :=
  ⟨"define VERSION_STRING \"v".data, by decide, by decide, by decide, by decide⟩

theorem hashPat_patBuildDate : HashPat UV.patBuildDate :=
  ⟨"define BUILD_DATE \"".data, by decide, by decide, by decide, by decide⟩

theorem c3seg_major (v : UV.Version) (today x y ds : List Char)
    (hd : ds ≠ []) (hds : ∀ c ∈ ds, isDigitCh c = true)
    (hy : runLen isDigitCh y = 0) :
    UV.update_config_content v today
        (x ++ ("#define VERSION_MAJOR ".data ++ ds) ++ y) =
      UV.update_config_content v today x ++
        ("#define VERSION_MAJOR ".data ++ natRepr v.major) ++
        UV.update_config_content v today y := by
  have hhit : ∀ x' y', runLen isDigitCh y' = 0 →
      subAll UV.patMajor ("#define VERSION_MAJOR ".data ++ natRepr v.major)
          (x' ++ ("#define VERSION_MAJOR ".data ++ ds) ++ y') =
        subAll UV.patMajor ("#define VERSION_MAJOR ".data ++ natRepr v.major)
            x' ++
          ("#define VERSION_MAJOR ".data ++ natRepr v.major) ++
          subAll UV.patMajor ("#define VERSION_MAJOR ".data ++ natRepr v.major)
            y' := by
    intro x' y' hy'
    have hrun : runLen UV.patMajor.cls (ds ++ (UV.patMajor.tail ++ y')) =
        ds.length := by
      show runLen isDigitCh (ds ++ ([] ++ y')) = ds.length
      rw [List.nil_append, runLen_append_all hds y', hy']
      omega
    have h0 := @patMatchAt_occ UV.patMajor "define VERSION_MAJOR ".data
      lit1_head ds y' hd hrun
    rw [show UV.patMajor.tail = ([] : List Char) from rfl, List.append_nil] at h0
    exact segHit_pack _ hashPat_patMajor h0 x'
  have hB : ∀ pr ∈
      [ (UV.patMinor, "#define VERSION_MINOR ".data ++ natRepr v.minor),
        (UV.patPatchNum, "#define VERSION_PATCH ".data ++ natRepr v.patch),
        (UV.patBuildNum, "#define VERSION_BUILD ".data ++ natRepr v.build),
        (UV.patVerString,
          "#define VERSION_STRING \"".data ++ UV.version_string v ++ ['"']),
        (UV.patBuildDate, "#define BUILD_DATE \"".data ++ today ++ ['"']) ],
      ∀ x' y', subAll pr.1 pr.2
          (x' ++ ("#define VERSION_MAJOR ".data ++ natRepr v.major) ++ y') =
        subAll pr.1 pr.2 x' ++
          ("#define VERSION_MAJOR ".data ++ natRepr v.major) ++
          subAll pr.1 pr.2 y' := by
    intro pr hpr
    fin_cases hpr
    · exact segSkip_of_clash _ hashPat_patMinor lit1_head (by decide)
        (by decide) (hashFree_natRepr v.major)
    · exact segSkip_of_clash _ hashPat_patPatchNum lit1_head (by decide)
        (by decide) (hashFree_natRepr v.major)
    · exact segSkip_of_clash _ hashPat_patBuildNum lit1_head (by decide)
        (by decide) (hashFree_natRepr v.major)
    · exact segSkip_of_clash _ hashPat_patVerString lit1_head (by decide)
        (by decide) (hashFree_natRepr v.major)
    · exact segSkip_of_clash _ hashPat_patBuildDate lit1_head (by decide)
        (by decide) (hashFree_natRepr v.major)
  simp only [UV.update_config_content, UV.verPats]
  exact applyAll_replace_seg (fun s => runLen isDigitCh s = 0)
    (UV.patMajor, "#define VERSION_MAJOR ".data ++ natRepr v.major)
    [ (UV.patMinor, "#define VERSION_MINOR ".data ++ natRepr v.minor),
      (UV.patPatchNum, "#define VERSION_PATCH ".data ++ natRepr v.patch),
      (UV.patBuildNum, "#define VERSION_BUILD ".data ++ natRepr v.build),
      (UV.patVerString,
        "#define VERSION_STRING \"".data ++ UV.version_string v ++ ['"']),
      (UV.patBuildDate, "#define BUILD_DATE \"".data ++ today ++ ['"']) ]
    ("#define VERSION_MAJOR ".data ++ ds) hhit hB []
    (fun pr hpr => absurd hpr (List.not_mem_nil pr))
    (fun pr hpr => absurd hpr (List.not_mem_nil pr)) x y hy

theorem c3seg_minor (v : UV.Version) (today x y ds : List Char)
    (hd : ds ≠ []) (hds : ∀ c ∈ ds, isDigitCh c = true)
    (hy : runLen isDigitCh y = 0) :
    UV.update_config_content v today
        (x ++ ("#define VERSION_MINOR ".data ++ ds) ++ y) =
      UV.update_config_content v today x ++
        ("#define VERSION_MINOR ".data ++ natRepr v.minor) ++
        UV.update_config_content v today y := by
  have hhit : ∀ x' y', runLen isDigitCh y' = 0 →
      subAll UV.patMinor ("#define VERSION_MINOR ".data ++ natRepr v.minor)
          (x' ++ ("#define VERSION_MINOR ".data ++ ds) ++ y') =
        subAll UV.patMinor ("#define VERSION_MINOR ".data ++ natRepr v.minor)
            x' ++
          ("#define VERSION_MINOR ".data ++ natRepr v.minor) ++
          subAll UV.patMinor ("#define VERSION_MINOR ".data ++ natRepr v.minor)
            y' := by
    intro x' y' hy'
    have hrun : runLen UV.patMinor.cls (ds ++ (UV.patMinor.tail ++ y')) =
        ds.length := by
      show runLen isDigitCh (ds ++ ([] ++ y')) = ds.length
      rw [List.nil_append, runLen_append_all hds y', hy']
      omega
    have h0 := @patMatchAt_occ UV.patMinor "define VERSION_MINOR ".data
      lit2_head ds y' hd hrun
    rw [show UV.patMinor.tail = ([] : List Char) from rfl, List.append_nil] at h0
    exact segHit_pack _ hashPat_patMinor h0 x'
  have hB : ∀ pr ∈
      [ (UV.patPatchNum, "#define VERSION_PATCH ".data ++ natRepr v.patch),
        (UV.patBuildNum, "#define VERSION_BUILD ".data ++ natRepr v.build),
        (UV.patVerString,
          "#define VERSION_STRING \"".data ++ UV.version_string v ++ ['"']),
        (UV.patBuildDate, "#define BUILD_DATE \"".data ++ today ++ ['"']) ],
      ∀ x' y', subAll pr.1 pr.2
          (x' ++ ("#define VERSION_MINOR ".data ++ natRepr v.minor) ++ y') =
        subAll pr.1 pr.2 x' ++
          ("#define VERSION_MINOR ".data ++ natRepr v.minor) ++
          subAll pr.1 pr.2 y' := by
    intro pr hpr
    fin_cases hpr
    · exact segSkip_of_clash _ hashPat_patPatchNum lit2_head (by decide)
        (by decide) (hashFree_natRepr v.minor)
    · exact segSkip_of_clash _ hashPat_patBuildNum lit2_head (by decide)
        (by decide) (hashFree_natRepr v.minor)
    · exact segSkip_of_clash _ hashPat_patVerString lit2_head (by decide)
        (by decide) (hashFree_natRepr v.minor)
    · exact segSkip_of_clash _ hashPat_patBuildDate lit2_head (by decide)
        (by decide) (hashFree_natRepr v.minor)
  have hA : ∀ pr ∈
      [ (UV.patMajor, "#define VERSION_MAJOR ".data ++ natRepr v.major) ],
      ∀ x' y', subAll pr.1 pr.2
          (x' ++ ("#define VERSION_MINOR ".data ++ ds) ++ y') =
        subAll pr.1 pr.2 x' ++ ("#define VERSION_MINOR ".data ++ ds) ++
          subAll pr.1 pr.2 y' := by
    intro pr hpr
    fin_cases hpr
    · exact segSkip_of_clash _ hashPat_patMajor lit2_head (by decide)
        (by decide) (hash_not_of_cls (by decide) hds)
  have hAinv : ∀ pr ∈
      [ (UV.patMajor, "#define VERSION_MAJOR ".data ++ natRepr v.major) ],
      ∀ s, runLen isDigitCh s = 0 →
        runLen isDigitCh (subAll pr.1 pr.2 s) = 0 := by
    intro pr hpr
    fin_cases hpr
    · exact runLen0_subAll (cons_head_append lit1_head (natRepr v.major))
  simp only [UV.update_config_content, UV.verPats]
  exact applyAll_replace_seg (fun s => runLen isDigitCh s = 0)
    (UV.patMinor, "#define VERSION_MINOR ".data ++ natRepr v.minor)
    [ (UV.patPatchNum, "#define VERSION_PATCH ".data ++ natRepr v.patch),
      (UV.patBuildNum, "#define VERSION_BUILD ".data ++ natRepr v.build),
      (UV.patVerString,
        "#define VERSION_STRING \"".data ++ UV.version_string v ++ ['"']),
      (UV.patBuildDate, "#define BUILD_DATE \"".data ++ today ++ ['"']) ]
    ("#define VERSION_MINOR ".data ++ ds) hhit hB
    [ (UV.patMajor, "#define VERSION_MAJOR ".data ++ natRepr v.major) ]
    hA hAinv x y hy

theorem c3seg_patch (v : UV.Version) (today x y ds : List Char)
    (hd : ds ≠ []) (hds : ∀ c ∈ ds, isDigitCh c = true)
    (hy : runLen isDigitCh y = 0) :
    UV.update_config_content v today
        (x ++ ("#define VERSION_PATCH ".data ++ ds) ++ y) =
      UV.update_config_content v today x ++
        ("#define VERSION_PATCH ".data ++ natRepr v.patch) ++
        UV.update_config_content v today y := by
  have hhit : ∀ x' y', runLen isDigitCh y' = 0 →
      subAll UV.patPatchNum ("#define VERSION_PATCH ".data ++ natRepr v.patch)
          (x' ++ ("#define VERSION_PATCH ".data ++ ds) ++ y') =
        subAll UV.patPatchNum
            ("#define VERSION_PATCH ".data ++ natRepr v.patch) x' ++
          ("#define VERSION_PATCH ".data ++ natRepr v.patch) ++
          subAll UV.patPatchNum
            ("#define VERSION_PATCH ".data ++ natRepr v.patch) y' := by
    intro x' y' hy'
    have hrun : runLen UV.patPatchNum.cls (ds ++ (UV.patPatchNum.tail ++ y')) =
        ds.length := by
      show runLen isDigitCh (ds ++ ([] ++ y')) = ds.length
      rw [List.nil_append, runLen_append_all hds y', hy']
      omega
    have h0 := @patMatchAt_occ UV.patPatchNum "define VERSION_PATCH ".data
      lit3_head ds y' hd hrun
    rw [show UV.patPatchNum.tail = ([] : List Char) from rfl,
      List.append_nil] at h0
    exact segHit_pack _ hashPat_patPatchNum h0 x'
  have hB : ∀ pr ∈
      [ (UV.patBuildNum, "#define VERSION_BUILD ".data ++ natRepr v.build),
        (UV.patVerString,
          "#define VERSION_STRING \"".data ++ UV.version_string v ++ ['"']),
        (UV.patBuildDate, "#define BUILD_DATE \"".data ++ today ++ ['"']) ],
      ∀ x' y', subAll pr.1 pr.2
          (x' ++ ("#define VERSION_PATCH ".data ++ natRepr v.patch) ++ y') =
        subAll pr.1 pr.2 x' ++
          ("#define VERSION_PATCH ".data ++ natRepr v.patch) ++
          subAll pr.1 pr.2 y' := by
    intro pr hpr
    fin_cases hpr
    · exact segSkip_of_clash _ hashPat_patBuildNum lit3_head (by decide)
        (by decide) (hashFree_natRepr v.patch)
    · exact segSkip_of_clash _ hashPat_patVerString lit3_head (by decide)
        (by decide) (hashFree_natRepr v.patch)
    · exact segSkip_of_clash _ hashPat_patBuildDate lit3_head (by decide)
        (by decide) (hashFree_natRepr v.patch)
  have hA : ∀ pr ∈
      [ (UV.patMajor, "#define VERSION_MAJOR ".data ++ natRepr v.major),
        (UV.patMinor, "#define VERSION_MINOR ".data ++ natRepr v.minor) ],
      ∀ x' y', subAll pr.1 pr.2
          (x' ++ ("#define VERSION_PATCH ".data ++ ds) ++ y') =
        subAll pr.1 pr.2 x' ++ ("#define VERSION_PATCH ".data ++ ds) ++
          subAll pr.1 pr.2 y' := by
    intro pr hpr
    fin_cases hpr
    · exact segSkip_of_clash _ hashPat_patMajor lit3_head (by decide)
        (by decide) (hash_not_of_cls (by decide) hds)
    · exact segSkip_of_clash _ hashPat_patMinor lit3_head (by decide)
        (by decide) (hash_not_of_cls (by decide) hds)
  have hAinv : ∀ pr ∈
      [ (UV.patMajor, "#define VERSION_MAJOR ".data ++ natRepr v.major),
        (UV.patMinor, "#define VERSION_MINOR ".data ++ natRepr v.minor) ],
      ∀ s, runLen isDigitCh s = 0 →
        runLen isDigitCh (subAll pr.1 pr.2 s) = 0 := by
    intro pr hpr
    fin_cases hpr
    · exact runLen0_subAll (cons_head_append lit1_head (natRepr v.major))
    · exact runLen0_subAll (cons_head_append lit2_head (natRepr v.minor))
  simp only [UV.update_config_content, UV.verPats]
  exact applyAll_replace_seg (fun s => runLen isDigitCh s = 0)
    (UV.patPatchNum, "#define VERSION_PATCH ".data ++ natRepr v.patch)
    [ (UV.patBuildNum, "#define VERSION_BUILD ".data ++ natRepr v.build),
      (UV.patVerString,
        "#define VERSION_STRING \"".data ++ UV.version_string v ++ ['"']),
      (UV.patBuildDate, "#define BUILD_DATE \"".data ++ today ++ ['"']) ]
    ("#define VERSION_PATCH ".data ++ ds) hhit hB
    [ (UV.patMajor, "#define VERSION_MAJOR ".data ++ natRepr v.major),
      (UV.patMinor, "#define VERSION_MINOR ".data ++ natRepr v.minor) ]
    hA hAinv x y hy

theorem c3seg_build (v : UV.Version) (today x y ds : List Char)
    (hd : ds ≠ []) (hds : ∀ c ∈ ds, isDigitCh c = true)
    (hy : runLen isDigitCh y = 0) :
    UV.update_config_content v today
        (x ++ ("#define VERSION_BUILD ".data ++ ds) ++ y) =
      UV.update_config_content v today x ++
        ("#define VERSION_BUILD ".data ++ natRepr v.build) ++
        UV.update_config_content v today y := by
  have hhit : ∀ x' y', runLen isDigitCh y' = 0 →
      subAll UV.patBuildNum ("#define VERSION_BUILD ".data ++ natRepr v.build)
          (x' ++ ("#define VERSION_BUILD ".data ++ ds) ++ y') =
        subAll UV.patBuildNum
            ("#define VERSION_BUILD ".data ++ natRepr v.build) x' ++
          ("#define VERSION_BUILD ".data ++ natRepr v.build) ++
          subAll UV.patBuildNum
            ("#define VERSION_BUILD ".data ++ natRepr v.build) y' := by
    intro x' y' hy'
    have hrun : runLen UV.patBuildNum.cls (ds ++ (UV.patBuildNum.tail ++ y')) =
        ds.length := by
      show runLen isDigitCh (ds ++ ([] ++ y')) = ds.length
      rw [List.nil_append, runLen_append_all hds y', hy']
      omega
    have h0 := @patMatchAt_occ UV.patBuildNum "define VERSION_BUILD ".data
      lit4_head ds y' hd hrun
    rw [show UV.patBuildNum.tail = ([] : List Char) from rfl,
      List.append_nil] at h0
    exact segHit_pack _ hashPat_patBuildNum h0 x'
  have hB : ∀ pr ∈
      [ (UV.patVerString,
          "#define VERSION_STRING \"".data ++ UV.version_string v ++ ['"']),
        (UV.patBuildDate, "#define BUILD_DATE \"".data ++ today ++ ['"']) ],
      ∀ x' y', subAll pr.1 pr.2
          (x' ++ ("#define VERSION_BUILD ".data ++ natRepr v.build) ++ y') =
        subAll pr.1 pr.2 x' ++
          ("#define VERSION_BUILD ".data ++ natRepr v.build) ++
          subAll pr.1 pr.2 y' := by
    intro pr hpr
    fin_cases hpr
    · exact segSkip_of_clash _ hashPat_patVerString lit4_head (by decide)
        (by decide) (hashFree_natRepr v.build)
    · exact segSkip_of_clash _ hashPat_patBuildDate lit4_head (by decide)
        (by decide) (hashFree_natRepr v.build)
  have hA : ∀ pr ∈
      [ (UV.patMajor, "#define VERSION_MAJOR ".data ++ natRepr v.major),
        (UV.patMinor, "#define VERSION_MINOR ".data ++ natRepr v.minor),
        (UV.patPatchNum, "#define VERSION_PATCH ".data ++ natRepr v.patch) ],
      ∀ x' y', subAll pr.1 pr.2
          (x' ++ ("#define VERSION_BUILD ".data ++ ds) ++ y') =
        subAll pr.1 pr.2 x' ++ ("#define VERSION_BUILD ".data ++ ds) ++
          subAll pr.1 pr.2 y' := by
    intro pr hpr
    fin_cases hpr
    · exact segSkip_of_clash _ hashPat_patMajor lit4_head (by decide)
        (by decide) (hash_not_of_cls (by decide) hds)
    · exact segSkip_of_clash _ hashPat_patMinor lit4_head (by decide)
        (by decide) (hash_not_of_cls (by decide) hds)
    · exact segSkip_of_clash _ hashPat_patPatchNum lit4_head (by decide)
        (by decide) (hash_not_of_cls (by decide) hds)
  have hAinv : ∀ pr ∈
      [ (UV.patMajor, "#define VERSION_MAJOR ".data ++ natRepr v.major),
        (UV.patMinor, "#define VERSION_MINOR ".data ++ natRepr v.minor),
        (UV.patPatchNum, "#define VERSION_PATCH ".data ++ natRepr v.patch) ],
      ∀ s, runLen isDigitCh s = 0 →
        runLen isDigitCh (subAll pr.1 pr.2 s) = 0 := by
    intro pr hpr
    fin_cases hpr
    · exact runLen0_subAll (cons_head_append lit1_head (natRepr v.major))
    · exact runLen0_subAll (cons_head_append lit2_head (natRepr v.minor))
    · exact runLen0_subAll (cons_head_append lit3_head (natRepr v.patch))
  simp only [UV.update_config_content, UV.verPats]
  exact applyAll_replace_seg (fun s => runLen isDigitCh s = 0)
    (UV.patBuildNum, "#define VERSION_BUILD ".data ++ natRepr v.build)
    [ (UV.patVerString,
        "#define VERSION_STRING \"".data ++ UV.version_string v ++ ['"']),
      (UV.patBuildDate, "#define BUILD_DATE \"".data ++ today ++ ['"']) ]
    ("#define VERSION_BUILD ".data ++ ds) hhit hB
    [ (UV.patMajor, "#define VERSION_MAJOR ".data ++ natRepr v.major),
      (UV.patMinor, "#define VERSION_MINOR ".data ++ natRepr v.minor),
      (UV.patPatchNum, "#define VERSION_PATCH ".data ++ natRepr v.patch) ]
    hA hAinv x y hy

theorem c3seg_verString (v : UV.Version) (today x y ds : List Char)
    (hd : ds ≠ []) (hds : ∀ c ∈ ds, (isDigitCh c || c == '.') = true) :
    UV.update_config_content v today
        (x ++ ("#define VERSION_STRING \"v".data ++ ds ++ ['"']) ++ y) =
      UV.update_config_content v today x ++
        ("#define VERSION_STRING \"".data ++ UV.version_string v ++ ['"']) ++
        UV.update_config_content v today y := by
  have hhit : ∀ x' y', True →
      subAll UV.patVerString
          ("#define VERSION_STRING \"".data ++ UV.version_string v ++ ['"'])
          (x' ++ ("#define VERSION_STRING \"v".data ++ ds ++ ['"']) ++ y') =
        subAll UV.patVerString
            ("#define VERSION_STRING \"".data ++ UV.version_string v ++ ['"'])
            x' ++
          ("#define VERSION_STRING \"".data ++ UV.version_string v ++ ['"']) ++
          subAll UV.patVerString
            ("#define VERSION_STRING \"".data ++ UV.version_string v ++ ['"'])
            y' := by
    intro x' y' _
    have hrun : runLen UV.patVerString.cls
        (ds ++ (UV.patVerString.tail ++ y')) = ds.length := by
      show runLen (fun c => isDigitCh c || c == '.') (ds ++ '"' :: y') =
        ds.length
      rw [runLen_append_stop (by decide) ds y', runLen_all hds]
    have h0 := @patMatchAt_occ UV.patVerString "define VERSION_STRING \"v".data
      lit5_head ds y' hd hrun
    rw [show UV.patVerString.tail = ['"'] from rfl] at h0
    exact segHit_pack _ hashPat_patVerString h0 x'
  have hB : ∀ pr ∈
      [ (UV.patBuildDate, "#define BUILD_DATE \"".data ++ today ++ ['"']) ],
      ∀ x' y', subAll pr.1 pr.2
          (x' ++
            ("#define VERSION_STRING \"".data ++ UV.version_string v ++ ['"'])
            ++ y') =
        subAll pr.1 pr.2 x' ++
          ("#define VERSION_STRING \"".data ++ UV.version_string v ++ ['"']) ++
          subAll pr.1 pr.2 y' := by
    intro pr hpr
    fin_cases hpr
    · exact segSkip_of_clash _ hashPat_patBuildDate
        (cons_head_append lit5s_head (UV.version_string v))
        (hash_not_mem_append (by decide) (hashFree_version_string v))
        (litClash_of_append (by decide) (UV.version_string v)) (by decide)
  have hA : ∀ pr ∈
      [ (UV.patMajor, "#define VERSION_MAJOR ".data ++ natRepr v.major),
        (UV.patMinor, "#define VERSION_MINOR ".data ++ natRepr v.minor),
        (UV.patPatchNum, "#define VERSION_PATCH ".data ++ natRepr v.patch),
        (UV.patBuildNum, "#define VERSION_BUILD ".data ++ natRepr v.build) ],
      ∀ x' y', subAll pr.1 pr.2
          (x' ++ ("#define VERSION_STRING \"v".data ++ ds ++ ['"']) ++ y') =
        subAll pr.1 pr.2 x' ++
          ("#define VERSION_STRING \"v".data ++ ds ++ ['"']) ++
          subAll pr.1 pr.2 y' := by
    intro pr hpr
    fin_cases hpr
    · exact segSkip_of_clash _ hashPat_patMajor (cons_head_append lit5_head ds)
        (hash_not_mem_append (by decide) (hash_not_of_cls (by decide) hds))
        (litClash_of_append (by decide) ds) (by decide)
    · exact segSkip_of_clash _ hashPat_patMinor (cons_head_append lit5_head ds)
        (hash_not_mem_append (by decide) (hash_not_of_cls (by decide) hds))
        (litClash_of_append (by decide) ds) (by decide)
    · exact segSkip_of_clash _ hashPat_patPatchNum
        (cons_head_append lit5_head ds)
        (hash_not_mem_append (by decide) (hash_not_of_cls (by decide) hds))
        (litClash_of_append (by decide) ds) (by decide)
    · exact segSkip_of_clash _ hashPat_patBuildNum
        (cons_head_append lit5_head ds)
        (hash_not_mem_append (by decide) (hash_not_of_cls (by decide) hds))
        (litClash_of_append (by decide) ds) (by decide)
  simp only [UV.update_config_content, UV.verPats]
  exact applyAll_replace_seg (fun _ => True)
    (UV.patVerString,
      "#define VERSION_STRING \"".data ++ UV.version_string v ++ ['"'])
    [ (UV.patBuildDate, "#define BUILD_DATE \"".data ++ today ++ ['"']) ]
    ("#define VERSION_STRING \"v".data ++ ds ++ ['"']) hhit hB
    [ (UV.patMajor, "#define VERSION_MAJOR ".data ++ natRepr v.major),
      (UV.patMinor, "#define VERSION_MINOR ".data ++ natRepr v.minor),
      (UV.patPatchNum, "#define VERSION_PATCH ".data ++ natRepr v.patch),
      (UV.patBuildNum, "#define VERSION_BUILD ".data ++ natRepr v.build) ]
    hA (fun _ _ _ _ => trivial) x y trivial

theorem c3seg_buildDate (v : UV.Version) (today x y ds : List Char)
    (hd : ds ≠ []) (hds : ∀ c ∈ ds, (isDigitCh c || c == '/') = true) :
    UV.update_config_content v today
        (x ++ ("#define BUILD_DATE \"".data ++ ds ++ ['"']) ++ y) =
      UV.update_config_content v today x ++
        ("#define BUILD_DATE \"".data ++ today ++ ['"']) ++
        UV.update_config_content v today y := by
  have hhit : ∀ x' y', True →
      subAll UV.patBuildDate
          ("#define BUILD_DATE \"".data ++ today ++ ['"'])
          (x' ++ ("#define BUILD_DATE \"".data ++ ds ++ ['"']) ++ y') =
        subAll UV.patBuildDate
            ("#define BUILD_DATE \"".data ++ today ++ ['"']) x' ++
          ("#define BUILD_DATE \"".data ++ today ++ ['"']) ++
          subAll UV.patBuildDate
            ("#define BUILD_DATE \"".data ++ today ++ ['"']) y' := by
    intro x' y' _
    have hrun : runLen UV.patBuildDate.cls
        (ds ++ (UV.patBuildDate.tail ++ y')) = ds.length := by
      show runLen (fun c => isDigitCh c || c == '/') (ds ++ '"' :: y') =
        ds.length
      rw [runLen_append_stop (by decide) ds y', runLen_all hds]
    have h0 := @patMatchAt_occ UV.patBuildDate "define BUILD_DATE \"".data
      lit6_head ds y' hd hrun
    rw [show UV.patBuildDate.tail = ['"'] from rfl] at h0
    exact segHit_pack _ hashPat_patBuildDate h0 x'
  have hA : ∀ pr ∈
      [ (UV.patMajor, "#define VERSION_MAJOR ".data ++ natRepr v.major),
        (UV.patMinor, "#define VERSION_MINOR ".data ++ natRepr v.minor),
        (UV.patPatchNum, "#define VERSION_PATCH ".data ++ natRepr v.patch),
        (UV.patBuildNum, "#define VERSION_BUILD ".data ++ natRepr v.build),
        (UV.patVerString,
          "#define VERSION_STRING \"".data ++ UV.version_string v ++ ['"']) ],
      ∀ x' y', subAll pr.1 pr.2
          (x' ++ ("#define BUILD_DATE \"".data ++ ds ++ ['"']) ++ y') =
        subAll pr.1 pr.2 x' ++
          ("#define BUILD_DATE \"".data ++ ds ++ ['"']) ++
          subAll pr.1 pr.2 y' := by
    intro pr hpr
    fin_cases hpr
    · exact segSkip_of_clash _ hashPat_patMajor (cons_head_append lit6_head ds)
        (hash_not_mem_append (by decide) (hash_not_of_cls (by decide) hds))
        (litClash_of_append (by decide) ds) (by decide)
    · exact segSkip_of_clash _ hashPat_patMinor (cons_head_append lit6_head ds)
        (hash_not_mem_append (by decide) (hash_not_of_cls (by decide) hds))
        (litClash_of_append (by decide) ds) (by decide)
    · exact segSkip_of_clash _ hashPat_patPatchNum
        (cons_head_append lit6_head ds)
        (hash_not_mem_append (by decide) (hash_not_of_cls (by decide) hds))
        (litClash_of_append (by decide) ds) (by decide)
    · exact segSkip_of_clash _ hashPat_patBuildNum
        (cons_head_append lit6_head ds)
        (hash_not_mem_append (by decide) (hash_not_of_cls (by decide) hds))
        (litClash_of_append (by decide) ds) (by decide)
    · exact segSkip_of_clash _ hashPat_patVerString
        (cons_head_append lit6_head ds)
        (hash_not_mem_append (by decide) (hash_not_of_cls (by decide) hds))
        (litClash_of_append (by decide) ds) (by decide)
  simp only [UV.update_config_content, UV.verPats]
  exact applyAll_replace_seg (fun _ => True)
    (UV.patBuildDate, "#define BUILD_DATE \"".data ++ today ++ ['"']) []
    ("#define BUILD_DATE \"".data ++ ds ++ ['"']) hhit
    (fun pr hpr => absurd hpr (List.not_mem_nil pr))
    [ (UV.patMajor, "#define VERSION_MAJOR ".data ++ natRepr v.major),
      (UV.patMinor, "#define VERSION_MINOR ".data ++ natRepr v.minor),
      (UV.patPatchNum, "#define VERSION_PATCH ".data ++ natRepr v.patch),
      (UV.patBuildNum, "#define VERSION_BUILD ".data ++ natRepr v.build),
      (UV.patVerString,
        "#define VERSION_STRING \"".data ++ UV.version_string v ++ ['"']) ]
    hA (fun _ _ _ _ => trivial) x y trivial

/-- C3 (amended): the patcher replaces each recognized macro definition at
every occurrence of its pattern in the text, not only at the first.  For
each of the six recognized patterns, any occurrence — an arbitrary position
`x ++ occurrence ++ y`, with an arbitrary non-empty payload `ds` of
class characters (for the four numeric macros, maximal: `y` does not
continue the digit run) — is rewritten to the new definition built from the
extracted version tuple (resp. today's date), and the surrounding text `x`
and `y` is itself processed by the patcher, independently. -/
theorem c3_amended_all_occurrences :
    (∀ (v : UV.Version) (today x y ds : List Char),
      ds ≠ [] → (∀ c ∈ ds, isDigitCh c = true) → runLen isDigitCh y = 0 →
      UV.update_config_content v today
          (x ++ ("#define VERSION_MAJOR ".data ++ ds) ++ y) =
        UV.update_config_content v today x ++
          ("#define VERSION_MAJOR ".data ++ natRepr v.major) ++
          UV.update_config_content v today y) ∧
    (∀ (v : UV.Version) (today x y ds : List Char),
      ds ≠ [] → (∀ c ∈ ds, isDigitCh c = true) → runLen isDigitCh y = 0 →
      UV.update_config_content v today
          (x ++ ("#define VERSION_MINOR ".data ++ ds) ++ y) =
        UV.update_config_content v today x ++
          ("#define VERSION_MINOR ".data ++ natRepr v.minor) ++
          UV.update_config_content v today y) ∧
    (∀ (v : UV.Version) (today x y ds : List Char),
      ds ≠ [] → (∀ c ∈ ds, isDigitCh c = true) → runLen isDigitCh y = 0 →
      UV.update_config_content v today
          (x ++ ("#define VERSION_PATCH ".data ++ ds) ++ y) =
        UV.update_config_content v today x ++
          ("#define VERSION_PATCH ".data ++ natRepr v.patch) ++
          UV.update_config_content v today y) ∧
    (∀ (v : UV.Version) (today x y ds : List Char),
      ds ≠ [] → (∀ c ∈ ds, isDigitCh c = true) → runLen isDigitCh y = 0 →
      UV.update_config_content v today
          (x ++ ("#define VERSION_BUILD ".data ++ ds) ++ y) =
        UV.update_config_content v today x ++
          ("#define VERSION_BUILD ".data ++ natRepr v.build) ++
          UV.update_config_content v today y) ∧
    (∀ (v : UV.Version) (today x y ds : List Char),
      ds ≠ [] → (∀ c ∈ ds, (isDigitCh c || c == '.') = true) →
      UV.update_config_content v today
          (x ++ ("#define VERSION_STRING \"v".data ++ ds ++ ['"']) ++ y) =
        UV.update_config_content v today x ++
          ("#define VERSION_STRING \"".data ++ UV.version_string v ++ ['"']) ++
          UV.update_config_content v today y) ∧
    (∀ (v : UV.Version) (today x y ds : List Char),
      ds ≠ [] → (∀ c ∈ ds, (isDigitCh c || c == '/') = true) →
      UV.update_config_content v today
          (x ++ ("#define BUILD_DATE \"".data ++ ds ++ ['"']) ++ y) =
        UV.update_config_content v today x ++
          ("#define BUILD_DATE \"".data ++ today ++ ['"']) ++
          UV.update_config_content v today y) :=
  ⟨c3seg_major, c3seg_minor, c3seg_patch, c3seg_build, c3seg_verString,
    c3seg_buildDate⟩

/-- Witness for the amended C3: the `VERSION_MAJOR` conjunct instantiated at
the tuple `(2, 0, 0, 5)` on a concrete occurrence that is preceded by text
`x` and followed, inside `y`, by a further occurrence of the same pattern. -/
theorem c3_amended_all_occurrences_witness :
    UV.update_config_content ⟨2, 0, 0, 5⟩ "01/01/2020".data
        ("A\n".data ++ ("#define VERSION_MAJOR ".data ++ "1".data) ++
          "\n#define VERSION_MAJOR 1".data) =
      UV.update_config_content ⟨2, 0, 0, 5⟩ "01/01/2020".data "A\n".data ++
        ("#define VERSION_MAJOR ".data ++ natRepr 2) ++
        UV.update_config_content ⟨2, 0, 0, 5⟩ "01/01/2020".data
          "\n#define VERSION_MAJOR 1".data :=
  c3_amended_all_occurrences.1 ⟨2, 0, 0, 5⟩ "01/01/2020".data "A\n".data
    "\n#define VERSION_MAJOR 1".data "1".data (by decide) (by decide)
    (by decide)
